import Mathlib

/-!
Verification development for the brand-content discovery pipeline
(Firecrawl webhook handler, R2 content uploader, pipeline orchestrator,
cron reconciler).  The TypeScript sources are shallowly embedded as
executable Lean definitions; strings are modelled as `List Char` where
character-level reasoning is needed and as `String` elsewhere.
-/

namespace BrandPipeline

/-- Split of a character list at every occurrence of the separator `c`,
modelling the JavaScript `String.prototype.split` call with a
one-character separator: the result is the list of maximal
separator-free pieces, and is never empty. -/
def jsSplit (c : Char) : List Char → List (List Char)
  | [] => [[]]
  | x :: xs =>
    if x = c then [] :: jsSplit c xs
    else
      match jsSplit c xs with
      | [] => [[x]]
      | p :: ps => (x :: p) :: ps

/-- Join a list of pieces with the separator character between them,
the inverse of `jsSplit`. -/
def joinWith (c : Char) : List (List Char) → List Char
  | [] => []
  | [p] => p
  | p :: q :: ps => p ++ c :: joinWith c (q :: ps)

/-- Boolean test that the list `p` is an initial segment of `s`
(character-list version of `startsWith`). -/
def leadChars : List Char → List Char → Bool
  | [], _ => true
  | _ :: _, [] => false
  | p :: ps, x :: xs => p = x && leadChars ps xs

/-- Hexadecimal digit character for a value below 16, lowercase, as
produced by the JavaScript radix-16 `toString`. -/
def hexDigitChar (n : Nat) : Char :=
  if n < 10 then Char.ofNat (48 + n) else Char.ofNat (87 + n)

/-- Fuelled helper for `natToHex`; the fuel is structural so that the
function reduces inside the kernel. -/
def natToHexAux : Nat → Nat → List Char
  | 0, _ => []
  | fuel + 1, n =>
    if n < 16 then [hexDigitChar n]
    else natToHexAux fuel (n / 16) ++ [hexDigitChar (n % 16)]

/-- Hexadecimal digits of a natural number, most significant first,
modelling the JavaScript `b.toString(16)`. -/
def natToHex (n : Nat) : List Char := natToHexAux (n + 1) n

/-- Model of `.padStart(2, "0")` on a digit string. -/
def padStart2 (l : List Char) : List Char :=
  match l with
  | [] => ['0', '0']
  | [c] => ['0', c]
  | l => l

/-- Model of `b.toString(16).padStart(2, "0")` from verify.ts line 46. -/
def jsHexByte (b : Nat) : List Char := padStart2 (natToHex b)

/-- Lowercase hex rendering of the HMAC output bytes, as built in
verify.ts lines 45-47 (map each byte to two padded hex digits, join). -/
def hexEncode (bytes : List Nat) : List Char := (bytes.map jsHexByte).flatten

/-- Result pair of `verifyWebhookSignature`: validity flag and the raw
body (empty on the early-rejection paths). -/
structure VerifyResult where
  isValid : Bool
  body : List Char
deriving DecidableEq, Repr

/-- Embedding of `verifyWebhookSignature` (src/backend/src/webhooks/verify.ts
lines 9-66).  The external HMAC-SHA256 primitive (`crypto.subtle`) is the
parameter `mac`, returning the tag as a byte list; the request is
abstracted to its optional `X-Firecrawl-Signature` header value and raw
body.  The header is split at `=` (JavaScript array destructuring takes
the first two pieces); the first piece must be `sha256` and the second
must equal the lowercase hex encoding of the tag.  When the header has no
`=`, the JavaScript `hash.length` access throws on `undefined` and the
surrounding try/catch yields an invalid result. -/
def verifyWebhookSignature (mac : List Char → List Char → List Nat)
    (webhookSecret : List Char) (signatureHeader : Option (List Char))
    (body : List Char) : VerifyResult :=
  match signatureHeader with
  | none => ⟨false, []⟩
  | some signature =>
    let parts := jsSplit '=' signature
    let algorithm := parts.headD []
    if algorithm ≠ "sha256".data then ⟨false, []⟩
    else
      match parts with
      | _ :: hashPiece :: _ =>
        let expectedSignature := hexEncode (mac webhookSecret body)
        ⟨hashPiece.length == expectedSignature.length &&
           hashPiece == expectedSignature, body⟩
      | _ => ⟨false, []⟩

/-- Demonstration MAC used by the witness below: a (cryptographically
meaningless) byte-valued function, standing in for the external
HMAC-SHA256 primitive. -/
def macDemo : List Char → List Char → List Nat := fun _ b => [b.length % 256]

/-- Lowercasing of a character list, the JavaScript `toLowerCase` on the
ASCII range the pipeline handles. -/
def jsToLower (s : List Char) : List Char := s.map Char.toLower

/-- Whitespace trim from both ends, the JavaScript `trim`. -/
def jsTrim (s : List Char) : List Char :=
  ((s.dropWhile Char.isWhitespace).reverse.dropWhile Char.isWhitespace).reverse

/-- First piece of the JavaScript one-character split, `s.split(c)[0]`:
the characters before the first occurrence of `c`. -/
def beforeChar (c : Char) : List Char → List Char
  | [] => []
  | x :: xs => if x = c then [] else x :: beforeChar c xs

/-- Value of a hexadecimal digit character. -/
def hexVal (c : Char) : Option Nat :=
  if '0' ≤ c ∧ c ≤ '9' then some (c.toNat - 48)
  else if 'a' ≤ c ∧ c ≤ 'f' then some (c.toNat - 87)
  else if 'A' ≤ c ∧ c ≤ 'F' then some (c.toNat - 55)
  else none

/-- ASCII-level model of the JavaScript `decodeURIComponent` builtin:
a `%XY` escape with hex digits decodes to the single character of byte
`XY` when that byte is ASCII; a malformed escape, or an escape byte
outside ASCII (which the builtin would decode as part of a multi-byte
UTF-8 sequence), is modelled as a decoding failure, corresponding to the
`URIError` throw.  The claims use this model only on escape-free or
ASCII-escaped inputs, where it agrees with the builtin. -/
def decodeURIComponentAscii : List Char → Option (List Char)
  | [] => some []
  | c :: rest =>
    if c = '%' then
      match rest with
      | h1 :: h2 :: rest2 =>
        match hexVal h1, hexVal h2 with
        | some a, some b =>
          if 16 * a + b < 128 then
            (decodeURIComponentAscii rest2).map (Char.ofNat (16 * a + b) :: ·)
          else none
        | _, _ => none
      | _ => none
    else (decodeURIComponentAscii rest).map (c :: ·)

/-- Replacement of the anchored regex `^https?:\/\/` by the empty string
(case-sensitive, at most one occurrence). -/
def stripScheme (s : List Char) : List Char :=
  if leadChars "https://".data s then s.drop 8
  else if leadChars "http://".data s then s.drop 7
  else s

/-- Replacement of the anchored regex `^www\.` by the empty string. -/
def stripWww (s : List Char) : List Char :=
  if leadChars "www.".data s then s.drop 4 else s

/-- Fallback branch of `normalizeUrl` (url-processor lines 256-261):
strip one scheme and one `www.` from the original input, lowercase and
trim, without decoding and without cutting at `/` or `:`. -/
def normalizeUrlFallback (input : List Char) : List Char :=
  jsTrim (jsToLower (stripWww (stripScheme input)))

/-- Embedding of `normalizeUrl` (url-processor lines 238-263): decode
percent-escapes, strip one leading scheme and one leading `www.`, cut at
the first `/` and then at the first `:`, lowercase and trim; when the
input is empty the result is empty, and when decoding throws or the
result is empty or lacks a dot, the catch block falls back to
`normalizeUrlFallback` on the original input. -/
def normalizeUrl (input : List Char) : List Char :=
  if input = [] then []
  else
    match decodeURIComponentAscii input with
    | none => normalizeUrlFallback input
    | some d0 =>
      let d1 := stripScheme d0
      let d2 := stripWww d1
      let d3 := beforeChar '/' d2
      let d4 := beforeChar ':' d3
      let d5 := jsTrim (jsToLower d4)
      if d5 = [] ∨ '.' ∉ d5 then normalizeUrlFallback input else d5

/-- Fixed-point shape for `normalizeUrl`: nonempty, escape-free, no `/`
or `:`, contains a dot, already lowercase and trimmed, and not led by
`www.` or a scheme. -/
def NormalizedShape (s : List Char) : Prop :=
  s ≠ [] ∧ '%' ∉ s ∧ '/' ∉ s ∧ ':' ∉ s ∧ '.' ∈ s ∧
  jsToLower s = s ∧ jsTrim s = s ∧
  leadChars "www.".data s = false ∧ leadChars "http://".data s = false ∧
  leadChars "https://".data s = false

instance (s : List Char) : Decidable (NormalizedShape s) := by
  unfold NormalizedShape
  infer_instance

/-- Substring test, the JavaScript `includes`. -/
def containsSub : List Char → List Char → Bool
  | n, [] => n.isEmpty
  | n, h :: t => leadChars n (h :: t) || containsSub n t

/-- String-level `startsWith`. -/
def strLead (p s : String) : Bool := leadChars p.data s.data

/-- String-level `includes`. -/
def strHas (n s : String) : Bool := containsSub n.data s.data

/-- JavaScript `a || b` on strings (empty string is falsy). -/
def jsOr (a b : String) : String := if a = "" then b else a

/-- JavaScript `a || b` where `a` may be undefined. -/
def jsOrOpt (a : Option String) (b : String) : String := jsOr (a.getD "") b

/-- One stored object of the R2 bucket model: key and byte size. -/
structure R2ObjectEntry where
  key : String
  size : Nat
deriving DecidableEq, Repr

/-- Model of the external R2 bucket: the list of stored objects. -/
structure R2Bucket where
  objects : List R2ObjectEntry
deriving DecidableEq, Repr

/-- Model of `r2Bucket.head`: size of the object at the key, if any. -/
def R2Bucket.head (b : R2Bucket) (k : String) : Option Nat :=
  (b.objects.find? (fun o => o.key == k)).map (fun o => o.size)

/-- Model of `r2Bucket.put`: store (or replace) the object at the key. -/
def R2Bucket.put (b : R2Bucket) (k : String) (size : Nat) : R2Bucket :=
  ⟨b.objects.filter (fun o => !(o.key == k)) ++ [⟨k, size⟩]⟩

/-- Model of `r2Bucket.delete`. -/
def R2Bucket.deleteKey (b : R2Bucket) (k : String) : R2Bucket :=
  ⟨b.objects.filter (fun o => !(o.key == k))⟩

/-- Model of `r2Bucket.list` with a key namespace argument: the stored
objects whose keys begin with it, in storage order. -/
def R2Bucket.listKeys (b : R2Bucket) (p : String) : List R2ObjectEntry :=
  b.objects.filter (fun o => strLead p o.key)

/-- One entry of `R2UploadRequest.content` (r2-upload-handler lines
8-16). -/
structure UploadContentItem where
  url : String
  title : String
  content : String
  processed_content : Option String
  contentType : Option String
  images : List String
deriving DecidableEq, Repr

/-- The `options` object of an upload request (absent flags are falsy). -/
structure R2UploadOptions where
  overwrite : Bool
  generateMetadata : Bool
  skipSupabaseStorage : Bool
deriving DecidableEq, Repr

/-- Embedding of `R2UploadRequest` (r2-upload-handler lines 6-23); the
`content` field is optional, as in the TypeScript interface. -/
structure R2UploadRequest where
  brandId : String
  domain : String
  content : Option (List UploadContentItem)
  options : R2UploadOptions
deriving DecidableEq, Repr

/-- Per-item result entry of `R2UploadResponse.results`. -/
structure R2UploadResult where
  url : String
  r2Key : String
  success : Bool
  size : Option Nat
  error : Option String
deriving DecidableEq, Repr

/-- The `summary` aggregate of `R2UploadResponse`. -/
structure R2UploadSummary where
  total : Nat
  successful : Nat
  failed : Nat
  totalSize : Nat
deriving DecidableEq, Repr

/-- Embedding of `R2UploadResponse` (r2-upload-handler lines 25-42). -/
structure R2UploadResponse where
  success : Bool
  brandId : String
  domain : String
  results : List R2UploadResult
  summary : R2UploadSummary
deriving DecidableEq, Repr

/-- Wall-clock snapshot of one invocation: `Date.now()` milliseconds and
the `toISOString` rendering. -/
structure Clock where
  nowMs : Nat
  nowIso : String
deriving DecidableEq, Repr

/-- Embedding of `getBrandR2Prefix` (r2-upload-handler lines 304-311):
strip one scheme and one `www.` from the domain, lowercase, and place it
under the brands/ namespace. -/
def getBrandR2Pref (domain : String) : String :=
  ⟨"brands/".data ++ jsToLower (stripWww (stripScheme domain.data))⟩

/-- Host and path of a parsed URL. -/
structure UrlParts where
  hostname : String
  pathname : String
deriving DecidableEq, Repr

/-- Split a character list at the first occurrence of a substring. -/
def splitAtSub (needle : List Char) : List Char → Option (List Char × List Char)
  | [] => if needle.isEmpty then some ([], []) else none
  | c :: rest =>
    if leadChars needle (c :: rest) then some ([], (c :: rest).drop needle.length)
    else (splitAtSub needle rest).map (fun p => (c :: p.1, p.2))

/-- Model of the JavaScript `new URL(...)` builtin on simple absolute
URLs of the form `scheme://host[:port][/path][?query][#hash]`: returns
the lowercased hostname and the pathname (with query and fragment cut
off, `/` when absent), and fails (the constructor throw) when the input
has no `scheme://host` shape. -/
def jsURL (url : String) : Option UrlParts :=
  match splitAtSub "://".data url.data with
  | none => none
  | some (scheme, rest) =>
    if scheme = [] then none
    else
      let hostPort := beforeChar '/' rest
      if hostPort = [] then none
      else
        let path := rest.drop hostPort.length
        let pathRaw := if path = [] then ['/'] else path
        some ⟨⟨jsToLower (beforeChar ':' hostPort)⟩,
          ⟨beforeChar '#' (beforeChar '?' pathRaw)⟩⟩

/-- Removal of a trailing `.ext` filename extension, the regex replace
of `\.[^/.]+$` by the empty string. -/
def stripExt (f : List Char) : List Char :=
  let rev := f.reverse
  let ext := rev.takeWhile (fun c => c ≠ '.' && c ≠ '/')
  match rev.drop ext.length with
  | '.' :: _ => if ext.isEmpty then f else f.take (f.length - ext.length - 1)
  | _ => f

/-- Replacement of every character outside `[a-zA-Z0-9-_]` by a dash,
the first sanitization step of `generateR2Key`. -/
def dashifyChar (c : Char) : Char :=
  if ('a' ≤ c ∧ c ≤ 'z') ∨ ('A' ≤ c ∧ c ≤ 'Z') ∨ ('0' ≤ c ∧ c ≤ '9') ∨
      c = '-' ∨ c = '_' then c else '-'

/-- Collapse of dash runs, the regex replace of `--+` by `-`. -/
def collapseDashesAux (prevDash : Bool) : List Char → List Char
  | [] => []
  | c :: rest =>
    if c = '-' then
      if prevDash then collapseDashesAux true rest
      else '-' :: collapseDashesAux true rest
    else c :: collapseDashesAux false rest

/-- Collapse of dash runs, starting outside a run. -/
def collapseDashes (s : List Char) : List Char := collapseDashesAux false s

/-- Removal of one leading and one trailing dash, the anchored global
regex replace of `^-|-$`. -/
def stripEdgeDashes (s : List Char) : List Char :=
  let s1 := match s with
    | '-' :: t => t
    | _ => s
  match s1.getLast? with
  | some '-' => s1.dropLast
  | _ => s1

/-- Embedding of `R2ContentUploader.categorizeContent` (r2-upload-handler
lines 258-299): keyword buckets over the joined, lowercased path
segments. -/
def categorizeContent (pathSegments : List (List Char)) : String :=
  let path : String := ⟨jsToLower (joinWith '/' pathSegments)⟩
  if strHas "product" path || strHas "model" path || strHas "car" path then
    "products"
  else if strHas "news" path || strHas "blog" path || strHas "article" path then
    "news"
  else if strHas "about" path || strHas "company" path ||
      strHas "history" path then "about"
  else if strHas "service" path || strHas "support" path ||
      strHas "maintenance" path then "services"
  else if strHas "contact" path || strHas "location" path ||
      strHas "dealer" path then "contact"
  else if strHas "gallery" path || strHas "image" path ||
      strHas "media" path then "media"
  else "pages"

/-- Embedding of `R2ContentUploader.generateR2Key` (r2-upload-handler
lines 219-253): filename from the last path segment (extension stripped,
sanitized to `[a-zA-Z0-9-_]`, dash runs collapsed, edge dashes removed,
`page-{index}` fallback), a keyword content-type folder, and a
`Date.now()` timestamp suffix; URL-parse failure falls back to the
`pages/page-{index}-{now}.md` shape. -/
def generateR2Key (brandPref url : String) (index : Nat) (nowMs : Nat) :
    String :=
  match jsURL url with
  | none => brandPref ++ "/content/pages/page-" ++ toString index ++ "-" ++
      toString nowMs ++ ".md"
  | some parts =>
    let pathSegments := (jsSplit '/' parts.pathname.data).filter
      (fun p => !p.isEmpty)
    let filename0 := match pathSegments.getLast? with
      | some seg => seg
      | none => "index".data
    let filename1 := stripExt filename0
    let filename2 := if filename1.isEmpty then
        ("page-" ++ toString index).data
      else filename1
    let filename := stripEdgeDashes (collapseDashes (filename2.map dashifyChar))
    let contentType := categorizeContent pathSegments
    brandPref ++ "/content/" ++ contentType ++ "/" ++ ⟨filename⟩ ++ "-" ++
      toString nowMs ++ ".md"

/-- Embedding of `R2ContentUploader.formatAsMarkdown` (r2-upload-handler
lines 316-348): YAML-like frontmatter followed by the body sections. -/
def formatAsMarkdown (contentItem : UploadContentItem) (index : Nat)
    (nowIso : String) : String :=
  let title := jsOr contentItem.title "Untitled"
  let contentType := jsOrOpt contentItem.contentType "page"
  let imagesJson := "[" ++
    String.intercalate "," (contentItem.images.map (fun s => "\"" ++ s ++ "\""))
    ++ "]"
  let imageSection := if contentItem.images.isEmpty then "" else
    "\n## Product Images\n" ++
    String.intercalate "\n" (contentItem.images.mapIdx
      (fun i img => "![Product Image " ++ toString (i + 1) ++ "](" ++ img ++ ")"))
    ++ "\n"
  let imagesFound := if contentItem.images.isEmpty then "" else
    "**Images Found:** " ++ toString contentItem.images.length
  let body := jsOr (contentItem.processed_content.getD "")
    (jsOr contentItem.content "No content available")
  "---\ntitle: " ++ title ++ "\nurl: " ++ contentItem.url ++
    "\nextracted_at: " ++ nowIso ++ "\ncontent_type: " ++ contentType ++
    "\nindex: " ++ toString index ++ "\nimages: " ++ imagesJson ++
    "\n---\n\n# " ++ title ++ "\n\n**Source URL:** [" ++ contentItem.url ++
    "](" ++ contentItem.url ++ ")\n**Extracted:** " ++ nowIso ++
    "\n**Content Type:** " ++ contentType ++ "\n" ++ imagesFound ++ "\n" ++
    imageSection ++ "\n## Content\n\n" ++ body ++
    "\n\n---\n\n*Content extracted and processed by Tedix Brand Pipeline*\n" ++
    "*Stored with multitenancy isolation in R2*\n"

/-- Embedding of `R2ContentUploader.uploadSingleContent` (r2-upload-handler
lines 146-214).  Unless `overwrite` is set, an existing object at the
computed key short-circuits as success with the existing size; otherwise
the markdown rendering is encoded and put, with the external put outcome
supplied by `putOk` (a failed put is the catch branch: failure entry with
empty key). -/
def uploadSingleContent (bucket : R2Bucket) (brandPref : String)
    (contentItem : UploadContentItem) (index : Nat)
    (options : R2UploadOptions) (clock : Clock) (putOk : Bool) :
    R2UploadResult × R2Bucket :=
  let r2Key := generateR2Key brandPref contentItem.url index clock.nowMs
  match (if options.overwrite then none else bucket.head r2Key) with
  | some existingSize =>
    ({url := contentItem.url, r2Key := r2Key, success := true,
      size := some existingSize, error := none}, bucket)
  | none =>
    let markdownContent := formatAsMarkdown contentItem index clock.nowIso
    let contentLen := markdownContent.utf8ByteSize
    if putOk then
      ({url := contentItem.url, r2Key := r2Key, success := true,
        size := some contentLen, error := none}, bucket.put r2Key contentLen)
    else
      ({url := contentItem.url, r2Key := "", success := false, size := none,
        error := some "Upload failed"}, bucket)

/-- Accumulator of the batch loop of `uploadBrandContent`: results list,
running summary counters and the evolving bucket. -/
structure UploadAcc where
  results : List R2UploadResult
  successful : Nat
  failed : Nat
  totalSize : Nat
  bucket : R2Bucket
deriving DecidableEq, Repr

/-- One settled item of the batch loop of `uploadBrandContent`
(r2-upload-handler lines 98-119): a successful result is pushed and
counted with its size; otherwise a failure entry with empty key and the
item error (or `Unknown error`) is pushed. -/
def uploadStep (brandPref : String) (options : R2UploadOptions)
    (clock : Clock) (putOks : Nat → Bool) (acc : UploadAcc)
    (contentItem : UploadContentItem) (index : Nat) : UploadAcc :=
  let r := uploadSingleContent acc.bucket brandPref contentItem index options
    clock (putOks index)
  if r.1.success then
    {results := acc.results ++ [r.1], successful := acc.successful + 1,
     failed := acc.failed, totalSize := acc.totalSize + r.1.size.getD 0,
     bucket := r.2}
  else
    {results := acc.results ++
       [{url := contentItem.url, r2Key := "", success := false, size := none,
         error := some (jsOr (r.1.error.getD "") "Unknown error")}],
     successful := acc.successful, failed := acc.failed + 1,
     totalSize := acc.totalSize, bucket := r.2}

/-- The batch loop of `uploadBrandContent` over all items, sequentially
in input order (the source joins batches of 5 with `allSettled`, which
settles every item and preserves input order in the pushed results). -/
def uploadItems (brandPref : String) (options : R2UploadOptions)
    (clock : Clock) (putOks : Nat → Bool) :
    List UploadContentItem → Nat → UploadAcc → UploadAcc
  | [], _, acc => acc
  | contentItem :: rest, index, acc =>
    uploadItems brandPref options clock putOks rest (index + 1)
      (uploadStep brandPref options clock putOks acc contentItem index)

/-- Embedding of `R2ContentUploader.uploadBrandContent` (r2-upload-handler
lines 55-141).  The initial response object reads
`request.content.length` before the emptiness guard, so an absent
`content` is a thrown `TypeError` (the `Except.error` case); a present
empty list returns the zero response; otherwise the batch loop runs and
the overall `success` flag is `successful > 0`. -/
def uploadBrandContent (request : R2UploadRequest) (clock : Clock)
    (putOks : Nat → Bool) (bucket : R2Bucket) :
    Except String (R2UploadResponse × R2Bucket) :=
  match request.content with
  | none => .error "TypeError: request.content is undefined"
  | some content =>
    if content.length = 0 then
      .ok ({success := false, brandId := request.brandId,
            domain := request.domain, results := [],
            summary := {total := content.length, successful := 0,
                        failed := 0, totalSize := 0}}, bucket)
    else
      let acc := uploadItems (getBrandR2Pref request.domain) request.options
        clock putOks content 0
        {results := [], successful := 0, failed := 0, totalSize := 0,
         bucket := bucket}
      .ok ({success := decide (0 < acc.successful),
            brandId := request.brandId,
            domain := request.domain, results := acc.results,
            summary := {total := content.length,
                        successful := acc.successful,
                        failed := acc.failed,
                        totalSize := acc.totalSize}}, acc.bucket)

/-- Number of successful entries of a result list. -/
def succCount (rs : List R2UploadResult) : Nat :=
  (rs.filter (fun r => r.success)).length

/-- Number of failed entries of a result list. -/
def failCount (rs : List R2UploadResult) : Nat :=
  (rs.filter (fun r => !r.success)).length

/-- Sum of the sizes of the successful entries of a result list. -/
def sizeSum (rs : List R2UploadResult) : Nat :=
  ((rs.filter (fun r => r.success)).map (fun r => r.size.getD 0)).sum

/-- Summary-consistency invariant of the upload accumulator. -/
def UploadAccInv (acc : UploadAcc) : Prop :=
  acc.successful = succCount acc.results ∧
  acc.failed = failCount acc.results ∧
  acc.totalSize = sizeSum acc.results

/-- Response component of an upload outcome (meaningless default on the
throw case). -/
def uploadRespOf (x : Except String (R2UploadResponse × R2Bucket)) :
    R2UploadResponse :=
  match x with
  | .ok (r, _) => r
  | .error _ => {success := false, brandId := "", domain := "", results := [],
                 summary := {total := 0, successful := 0, failed := 0,
                             totalSize := 0}}

/-- Bucket component of an upload outcome (empty on the throw case). -/
def uploadBucketOf (x : Except String (R2UploadResponse × R2Bucket)) :
    R2Bucket :=
  match x with
  | .ok (_, b) => b
  | .error _ => ⟨[]⟩

/-- Results list of an upload outcome, when it did not throw. -/
def uploadResultsOf (x : Except String (R2UploadResponse × R2Bucket)) :
    Option (List R2UploadResult) :=
  match x with
  | .ok (r, _) => some r.results
  | .error _ => none

/-- Demonstration content item: a page under `/about`. -/
def demoItemOk : UploadContentItem :=
  {url := "https://example.com/about", title := "About", content := "hello",
   processed_content := none, contentType := none, images := []}

/-- Demonstration content item: a page under `/blog`. -/
def demoItemFail : UploadContentItem :=
  {url := "https://example.com/blog/post", title := "Post", content := "text",
   processed_content := none, contentType := none, images := []}

/-- Demonstration options: no overwrite. -/
def demoOptions : R2UploadOptions :=
  {overwrite := false, generateMetadata := true, skipSupabaseStorage := false}

/-- Demonstration two-item upload request. -/
def c9Request : R2UploadRequest :=
  {brandId := "b1", domain := "example.com",
   content := some [demoItemOk, demoItemFail], options := demoOptions}

/-- Demonstration clock. -/
def demoClock : Clock := ⟨1000, "2026-01-01T00:00:00.000Z"⟩

/-- Demonstration put oracle: the first item stores, the second fails. -/
def c9PutOks : Nat → Bool := fun i => i == 0

/-- Request whose `content` field is absent. -/
def c10RequestNone : R2UploadRequest :=
  {brandId := "b1", domain := "example.com", content := none,
   options := demoOptions}

/-- Single-item request for the repeated-upload experiment, without
`overwrite`. -/
def c2Request : R2UploadRequest :=
  {brandId := "b1", domain := "example.com", content := some [demoItemOk],
   options := demoOptions}

/-- A metadata value of the open brand-metadata map: the embedded code
stores strings and boolean flags. -/
inductive MetaVal where
  | str (s : String)
  | flag (b : Bool)
deriving DecidableEq, Repr

/-- JavaScript object override `{...m, k: v}`: replace the value at `k`
in place when present (JavaScript keeps the first insertion position),
append otherwise. -/
def metaPut : List (String × MetaVal) → String → MetaVal →
    List (String × MetaVal)
  | [], k, v => [(k, v)]
  | (k', v') :: rest, k, v =>
    if k' = k then (k, v) :: rest else (k', v') :: metaPut rest k v

/-- Lookup in the metadata map. -/
def metaGet : List (String × MetaVal) → String → Option MetaVal
  | [], _ => none
  | (k', v') :: rest, k => if k' = k then some v' else metaGet rest k

/-- The structured extraction result (the JSON schema of
`startAsyncBrandExtraction`, async-jobs lines 30-44); every field may be
absent. -/
structure ExtractedData where
  company_name : Option String
  description : Option String
  industry : Option String
  logo_url : Option String
  contact_email : Option String
  phone_number : Option String
  address : Option String
  pricing_info : Option String
  main_product : Option String
deriving DecidableEq, Repr

/-- The empty extraction result (`extractedData = {}`). -/
def emptyExtractedData : ExtractedData :=
  {company_name := none, description := none, industry := none,
   logo_url := none, contact_email := none, phone_number := none,
   address := none, pricing_info := none, main_product := none}

/-- JavaScript object spread of the extraction result: one entry per
present field, in schema order. -/
def edSpread (ed : ExtractedData) : List (String × MetaVal) :=
  (match ed.company_name with
    | some s => [("company_name", MetaVal.str s)] | none => []) ++
  (match ed.description with
    | some s => [("description", MetaVal.str s)] | none => []) ++
  (match ed.industry with
    | some s => [("industry", MetaVal.str s)] | none => []) ++
  (match ed.logo_url with
    | some s => [("logo_url", MetaVal.str s)] | none => []) ++
  (match ed.contact_email with
    | some s => [("contact_email", MetaVal.str s)] | none => []) ++
  (match ed.phone_number with
    | some s => [("phone_number", MetaVal.str s)] | none => []) ++
  (match ed.address with
    | some s => [("address", MetaVal.str s)] | none => []) ++
  (match ed.pricing_info with
    | some s => [("pricing_info", MetaVal.str s)] | none => []) ++
  (match ed.main_product with
    | some s => [("main_product", MetaVal.str s)] | none => [])

/-- Title-cased first domain label, the
`domain.split(".")[0].charAt(0).toUpperCase() + domain.split(".")[0].slice(1)`
fallback brand name. -/
def titleCaseFirst (domain : String) : String :=
  match beforeChar '.' domain.data with
  | [] => ""
  | c :: rest => ⟨Char.toUpper c :: rest⟩

/-- The fields written to the brands row by an extract-completion
update. -/
structure BrandUpdatePayload where
  name : String
  description : String
  logo_url : String
  metadata : List (String × MetaVal)
  crawl_status : String
  updated_at : String
deriving DecidableEq, Repr

/-- Embedding of the brand update of the webhook `extract.completed`
branch (`handleExtractCompleted`, firecrawl-handler lines 208-231):
metadata is the spread of the extraction result overridden with the
`Various` industry default, the `worker_processed` and `playground_scan`
flags and the completion timestamp; crawl_status moves to
`processing`. -/
def webhookBrandUpdate (extractedData : ExtractedData) (domain : String)
    (nowIso : String) : BrandUpdatePayload :=
  let brandName := jsOrOpt extractedData.company_name (titleCaseFirst domain)
  {name := brandName,
   description := jsOrOpt extractedData.description
     ("Official website and services from " ++ brandName ++ "."),
   logo_url := jsOrOpt extractedData.logo_url
     ("https://logo.clearbit.com/" ++ domain),
   metadata := metaPut (metaPut (metaPut (metaPut (edSpread extractedData)
     "industry" (MetaVal.str (jsOrOpt extractedData.industry "Various")))
     "worker_processed" (MetaVal.flag true))
     "playground_scan" (MetaVal.flag true))
     "extractCompletedAt" (MetaVal.str nowIso),
   crawl_status := "processing",
   updated_at := nowIso}

/-- Embedding of the brand update of the cron reconciler completed
branch (`processPendingExtractJobs`, worker entry file lines 1015-1038):
metadata is the spread of the extraction result overridden with the
`Technology` industry default, the completion timestamp and the
`cronProcessed` flag; crawl_status moves to `processing`. -/
def cronBrandUpdate (extractedData : ExtractedData) (domain : String)
    (nowIso : String) : BrandUpdatePayload :=
  let brandName := jsOrOpt extractedData.company_name (titleCaseFirst domain)
  {name := brandName,
   description := jsOrOpt extractedData.description
     ("Official website and services from " ++ brandName ++ "."),
   logo_url := jsOrOpt extractedData.logo_url
     ("https://logo.clearbit.com/" ++ domain),
   metadata := metaPut (metaPut (metaPut (edSpread extractedData)
     "industry" (MetaVal.str (jsOrOpt extractedData.industry "Technology")))
     "extractCompletedAt" (MetaVal.str nowIso))
     "cronProcessed" (MetaVal.flag true),
   crawl_status := "processing",
   updated_at := nowIso}

/-- One row of the `brands` table, restricted to the fields the embedded
code reads or writes. -/
structure BrandRow where
  id : String
  primary_domain : String
  name : String
  description : String
  logo_url : String
  metadata : List (String × MetaVal)
  crawl_status : String
  is_public : Bool
  owner_id : Option String
  updated_at : Option String
deriving DecidableEq, Repr

/-- One row of the `brand_urls` table, restricted to the fields the
embedded code reads or writes. -/
structure BrandUrlRow where
  brand_id : String
  url : String
  status : String
  scraped_at : Option String
  image_count : Option Nat
  content_size : Option Nat
  uploading_started_at : Option String
  uploaded_at : Option String
  r2_key : Option String
  error_message : Option String
deriving DecidableEq, Repr

/-- One row of the `playground_url_mappings` table. -/
structure MappingRow where
  id : String
  brand_id : String
  domain : String
  status : String
  progress_percentage : Nat
  current_step : String
  error_message : Option String
  started_at : Option String
  completed_at : Option String
  updated_at : Option String
  urls_discovered : Option Nat
  company_info_count : Option Nat
  blog_count : Option Nat
  docs_count : Option Nat
  ecommerce_count : Option Nat
  total_urls : Option Nat
deriving DecidableEq, Repr

/-- The external database state: the three tables the pipeline
mutates. -/
structure Db where
  brands : List BrandRow
  brand_urls : List BrandUrlRow
  mappings : List MappingRow
deriving DecidableEq, Repr

/-- Filtered update, the model of a supabase `update ... eq/in` call:
apply `f` to every row matched by `p`. -/
def updateRows {α : Type} (p : α → Bool) (f : α → α) (l : List α) : List α :=
  l.map (fun r => if p r then f r else r)

/-- One element of the webhook event `data` array: the page metadata
fields the handler reads (`metadata.sourceURL`, `metadata.url`,
`metadata.title`), the markdown body, images, and the nested `data`
object of extract events. -/
structure PageData where
  sourceURL : Option String
  metaUrl : Option String
  title : Option String
  markdown : Option String
  images : List String
  extract : Option ExtractedData
deriving DecidableEq, Repr

/-- The correlation metadata of a webhook event. -/
structure WebhookMetadata where
  brandId : Option String
  domain : Option String
  mappingId : Option String
  jobType : Option String
deriving DecidableEq, Repr

/-- Embedding of `FirecrawlWebhookEvent` (firecrawl-handler lines
8-20). -/
structure FirecrawlWebhookEvent where
  success : Bool
  type : String
  id : String
  data : List PageData
  metadata : WebhookMetadata
  error : Option String
deriving DecidableEq, Repr

/-- The mapping-row write of `handleJobStarted` (firecrawl-handler lines
92-99): status `scraping_content`, progress 50. -/
def startedMappingWrite (eventId : String) (m : MappingRow) : MappingRow :=
  {m with status := "scraping_content", progress_percentage := 50,
          current_step := "Firecrawl job started (" ++ eventId ++ ")"}

/-- Embedding of `handleJobStarted` (firecrawl-handler lines 82-103). -/
def handleJobStarted (event : FirecrawlWebhookEvent) (db : Db) : Db :=
  let mappingId := event.metadata.mappingId.getD ""
  if mappingId ≠ "" then
    let newMappings := updateRows (fun m => m.id == mappingId)
      (startedMappingWrite event.id) db.mappings
    {db with mappings := newMappings}
  else db

/-- The brand-url write of `handlePageScraped` (firecrawl-handler lines
130-139): status `scraped` with scrape stats. -/
def scrapedUrlWrite (page : PageData) (clock : Clock) (u : BrandUrlRow) :
    BrandUrlRow :=
  {u with status := "scraped", scraped_at := some clock.nowIso,
          image_count := some page.images.length,
          content_size := some (page.markdown.getD "").length}

/-- Embedding of `categorizeContentType` (firecrawl-handler lines
367-382). -/
def categorizeContentType (url : String) : String :=
  match jsURL url with
  | none => "pages"
  | some parts =>
    let path : String := ⟨jsToLower parts.pathname.data⟩
    if strHas "/blog" path || strHas "/news" path then "blog"
    else if strHas "/docs" path || strHas "/documentation" path then "docs"
    else if strHas "/about" path || strHas "/company" path then "about"
    else if strHas "/product" path || strHas "/shop" path then "product"
    else if path == "/" || path == "/home" then "landing"
    else "other"

/-- Embedding of `uploadPageToR2` (firecrawl-handler lines 290-362):
mark the row `uploading`, run the single-page upload through
`uploadBrandContent` (with `overwrite: true`), then mark the row
`uploaded` with key and size, or `failed` with the item error.  The
external put outcome is `putOk`. -/
def uploadPageToR2 (page : PageData) (brandId domain : String)
    (clock : Clock) (putOk : Bool) (db : Db) (bucket : R2Bucket) :
    Db × R2Bucket :=
  let url := jsOr (page.sourceURL.getD "") (page.metaUrl.getD "")
  let uploadingUrls := updateRows
    (fun u => u.brand_id == brandId && u.url == url)
    (fun u => {u with status := "uploading",
                      uploading_started_at := some clock.nowIso}) db.brand_urls
  let db1 := {db with brand_urls := uploadingUrls}
  let pageItem : UploadContentItem :=
    {url := url, title := jsOrOpt page.title "Untitled",
     content := page.markdown.getD "",
     processed_content := some ((page.markdown.getD "").take 5000),
     contentType := some (categorizeContentType url),
     images := page.images}
  let uploadReq : R2UploadRequest :=
    {brandId := brandId, domain := domain, content := some [pageItem],
     options := {overwrite := true, generateMetadata := true,
                 skipSupabaseStorage := false}}
  match uploadBrandContent uploadReq clock (fun _ => putOk) bucket with
  | .error _ => (db1, bucket)
  | .ok (uploadResult, bucketAfter) =>
    if uploadResult.success &&
        ((uploadResult.results.head?.map (fun r => r.success)).getD false) then
      let uploadedUrls := updateRows
        (fun u => u.brand_id == brandId && u.url == url)
        (fun u => {u with status := "uploaded",
                          uploaded_at := some clock.nowIso,
                          r2_key := some ((uploadResult.results.head?.map
                          (fun r => r.r2Key)).getD ""),
                          content_size := some ((uploadResult.results.head?.bind
                          (fun r => r.size)).getD 0)}) db1.brand_urls
      ({db1 with brand_urls := uploadedUrls}, bucketAfter)
    else
      let failedUrls := updateRows
        (fun u => u.brand_id == brandId && u.url == url)
        (fun u => {u with status := "failed",
                          error_message := some (jsOr
                          ((uploadResult.results.head?.bind
                          (fun r => r.error)).getD "") "R2 upload failed")})
        db1.brand_urls
      ({db1 with brand_urls := failedUrls}, bucketAfter)

/-- Embedding of `handlePageScraped` (firecrawl-handler lines 108-145):
resolve the source URL, mark the row `scraped`, then trigger the
single-page R2 upload. -/
def handlePageScraped (event : FirecrawlWebhookEvent) (clock : Clock)
    (putOk : Bool) (db : Db) (bucket : R2Bucket) : Db × R2Bucket :=
  let brandId := event.metadata.brandId.getD ""
  match event.data with
  | [] => (db, bucket)
  | page :: _ =>
    let url := jsOr (page.sourceURL.getD "") (page.metaUrl.getD "")
    if url = "" then (db, bucket)
    else
      let scrapedUrls := updateRows
        (fun u => u.brand_id == brandId && u.url == url)
        (scrapedUrlWrite page clock) db.brand_urls
      let db1 := {db with brand_urls := scrapedUrls}
      uploadPageToR2 page brandId (event.metadata.domain.getD "") clock putOk
        db1 bucket

/-- The mapping-row write of `handleJobCompleted` (firecrawl-handler
lines 176-182): status `completed`, progress 100, human-readable count
summary. -/
def completedMappingWrite (uploadedCount failedCount : Nat) (clock : Clock)
    (m : MappingRow) : MappingRow :=
  {m with status := "completed", progress_percentage := 100,
          current_step := "✅ " ++ toString uploadedCount ++
          " pages uploaded to AI Search! (" ++ toString failedCount ++ " failed)",
          completed_at := some clock.nowIso}

/-- Embedding of `handleJobCompleted` (firecrawl-handler lines 150-187):
recompute the status tallies from the brand-url rows and close the
mapping. -/
def handleJobCompleted (event : FirecrawlWebhookEvent) (clock : Clock)
    (db : Db) : Db :=
  let brandId := event.metadata.brandId.getD ""
  let mappingId := event.metadata.mappingId.getD ""
  let urlStats := db.brand_urls.filter (fun u => u.brand_id == brandId)
  let uploadedCount := (urlStats.filter (fun u => u.status == "uploaded")).length
  let failedCount := (urlStats.filter (fun u => u.status == "failed")).length
  if mappingId ≠ "" then
    let newMappings := updateRows (fun m => m.id == mappingId)
      (completedMappingWrite uploadedCount failedCount clock) db.mappings
    {db with mappings := newMappings}
  else db

/-- Embedding of `handleExtractCompleted` (firecrawl-handler lines
192-249): gated by the `brandExtraction` job type and nonempty data,
apply the webhook brand update to the public ownerless brand row of the
domain. -/
def handleExtractCompleted (event : FirecrawlWebhookEvent) (clock : Clock)
    (db : Db) : Db :=
  let domain := event.metadata.domain.getD ""
  if event.metadata.jobType == some "brandExtraction" &&
      !event.data.isEmpty then
    match event.data with
    | [] => db
    | page :: _ =>
      let extractedData := page.extract.getD emptyExtractedData
      let payload := webhookBrandUpdate extractedData domain clock.nowIso
      let newBrands := updateRows
        (fun b => b.primary_domain == domain && b.is_public &&
          b.owner_id == none)
        (fun b => {b with name := payload.name,
                          description := payload.description,
                          logo_url := payload.logo_url,
                          metadata := payload.metadata,
                          crawl_status := payload.crawl_status,
                          updated_at := some payload.updated_at}) db.brands
      {db with brands := newBrands}
  else db

/-- The mapping-row write of `handleJobFailed` (firecrawl-handler lines
265-270). -/
def failedMappingWrite (eventError : Option String) (clock : Clock)
    (m : MappingRow) : MappingRow :=
  {m with status := "failed",
          error_message := some (jsOrOpt eventError "Firecrawl job failed"),
          completed_at := some clock.nowIso}

/-- Embedding of `handleJobFailed` (firecrawl-handler lines 254-285):
mark the mapping failed and bulk-transition pending brand urls (statuses
`discovered` and `scraping`) to `failed`. -/
def handleJobFailed (event : FirecrawlWebhookEvent) (clock : Clock)
    (db : Db) : Db :=
  let brandId := event.metadata.brandId.getD ""
  let mappingId := event.metadata.mappingId.getD ""
  let failedMappings := updateRows (fun m => m.id == mappingId)
    (failedMappingWrite event.error clock) db.mappings
  let db1 := if mappingId ≠ "" then {db with mappings := failedMappings}
    else db
  let failedUrls := updateRows
    (fun u => u.brand_id == brandId &&
      (u.status == "discovered" || u.status == "scraping"))
    (fun u => {u with status := "failed",
                      error_message := some (jsOrOpt event.error "Job failed")})
    db1.brand_urls
  {db1 with brand_urls := failedUrls}

/-- Embedding of `handleFirecrawlWebhook` (firecrawl-handler lines
25-77): require `brandId` and `domain` correlation metadata, then route
by the event type string (`crawl.*` and `batch_scrape.*` are treated
identically); unrecognized types are acknowledged and ignored. -/
def handleFirecrawlWebhook (event : FirecrawlWebhookEvent) (clock : Clock)
    (putOk : Bool) (db : Db) (bucket : R2Bucket) : Db × R2Bucket :=
  let brandId := event.metadata.brandId.getD ""
  let domain := event.metadata.domain.getD ""
  if brandId = "" || domain = "" then (db, bucket)
  else
    match event.type with
    | "crawl.started" | "batch_scrape.started" =>
      (handleJobStarted event db, bucket)
    | "crawl.page" | "batch_scrape.page" =>
      handlePageScraped event clock putOk db bucket
    | "crawl.completed" | "batch_scrape.completed" =>
      (handleJobCompleted event clock db, bucket)
    | "extract.completed" => (handleExtractCompleted event clock db, bucket)
    | "crawl.failed" | "batch_scrape.failed" | "extract.failed" =>
      (handleJobFailed event clock db, bucket)
    | _ => (db, bucket)

/-- The BrandUrl status vocabulary claimed by the data model. -/
def claimedUrlStatuses : List String :=
  ["discovered", "scraping", "uploading", "uploaded", "failed"]

/-- The BrandUrl status vocabulary the webhook handler actually writes:
the claimed set extended with the `scraped` status of the page event. -/
def allowedUrlStatuses : List String :=
  ["discovered", "scraping", "scraped", "uploading", "uploaded", "failed"]

/-- Boolean check that every row status lies in the extended
vocabulary. -/
def urlStatusesOk (rows : List BrandUrlRow) : Bool :=
  rows.all (fun u => decide (u.status ∈ allowedUrlStatuses))

/-- Demonstration page payload of a `crawl.page` event. -/
def c1Page : PageData :=
  {sourceURL := some "https://example.com/a", metaUrl := none,
   title := some "A", markdown := some "hello world", images := [],
   extract := none}

/-- Demonstration brand-url row in status `discovered`. -/
def c1Row : BrandUrlRow :=
  {brand_id := "b1", url := "https://example.com/a", status := "discovered",
   scraped_at := none, image_count := none, content_size := none,
   uploading_started_at := none, uploaded_at := none, r2_key := none,
   error_message := none}

/-- Demonstration database for the page event. -/
def c1Db : Db := {brands := [], brand_urls := [c1Row], mappings := []}

/-- Demonstration `crawl.page` event carrying full correlation
metadata. -/
def c1Event : FirecrawlWebhookEvent :=
  {success := true, type := "crawl.page", id := "job1", data := [c1Page],
   metadata := {brandId := some "b1", domain := some "example.com",
                mappingId := some "m1", jobType := none},
   error := none}

/-- Category tallies of the discovered links, as computed from
`categorizeUrls` output; the counts are inputs here since the claims
quantify over them. -/
structure CategoryCounts where
  company : Nat
  blog : Nat
  docs : Nat
  ecommerce : Nat
  other : Nat
deriving DecidableEq, Repr

/-- The mapping write of `storeDiscoveredUrls` (async-jobs lines
254-267): status `mapping_urls`, progress 40, category counts. -/
def storeUrlsMappingWrite (linksCount : Nat) (counts : CategoryCounts)
    (m : MappingRow) : MappingRow :=
  {m with status := "mapping_urls", progress_percentage := 40,
          current_step := "Discovered " ++ toString linksCount ++
            " URLs, starting async scraping...",
          urls_discovered := some linksCount,
          company_info_count := some counts.company,
          blog_count := some counts.blog,
          docs_count := some counts.docs,
          ecommerce_count := some counts.ecommerce,
          total_urls := some linksCount}

/-- The mapping upsert payload of the orchestrator step 3 (pipeline.ts
lines 145-154): status `processing`, progress 30. -/
def mappingUpsertPayload (brandId domain : String) (clock : Clock)
    (m : MappingRow) : MappingRow :=
  {m with brand_id := brandId, domain := domain, status := "processing",
          progress_percentage := 30,
          current_step := "Worker processing - Discovering URLs...",
          started_at := some clock.nowIso, updated_at := some clock.nowIso}

/-- Fresh mapping row inserted by the upsert when no (brand_id, domain)
row exists. -/
def newMappingRow (id brandId domain : String) (clock : Clock) :
    MappingRow :=
  {id := id, brand_id := brandId, domain := domain, status := "processing",
   progress_percentage := 30,
   current_step := "Worker processing - Discovering URLs...",
   error_message := none, started_at := some clock.nowIso,
   completed_at := none, updated_at := some clock.nowIso,
   urls_discovered := none, company_info_count := none, blog_count := none,
   docs_count := none, ecommerce_count := none, total_urls := none}

/-- The progress-mapping upsert (unique on brand_id+domain), returning
the resulting row. -/
def upsertMapping (brandId domain newMappingId : String) (clock : Clock)
    (db : Db) : MappingRow × Db :=
  match db.mappings.find?
      (fun m => m.brand_id == brandId && m.domain == domain) with
  | some ex =>
    let newMappings := updateRows
      (fun m => m.brand_id == brandId && m.domain == domain)
      (mappingUpsertPayload brandId domain clock) db.mappings
    (mappingUpsertPayload brandId domain clock ex,
      {db with mappings := newMappings})
  | none =>
    let nm := newMappingRow newMappingId brandId domain clock
    (nm, {db with mappings := db.mappings ++ [nm]})

/-- Placeholder brand metadata written by the orchestrator (pipeline.ts
lines 44-51 and 79-84, 114-119): the placeholder fields spread together
with the extraction job id and the worker flags. -/
def placeholderMetadata (domain extractJobId : String) :
    List (String × MetaVal) :=
  [("name", MetaVal.str (titleCaseFirst domain)),
   ("description", MetaVal.str
     ("Extracting brand information from " ++ domain ++ "...")),
   ("logo_url", MetaVal.str ("https://logo.clearbit.com/" ++ domain)),
   ("industry", MetaVal.str "Analyzing..."),
   ("extractJobId", MetaVal.str extractJobId),
   ("worker_processed", MetaVal.flag true),
   ("playground_scan", MetaVal.flag true)]

/-- The placeholder update of an existing playground brand (pipeline.ts
lines 73-90). -/
def brandPlaceholderUpdate (domain extractJobId : String) (clock : Clock)
    (b : BrandRow) : BrandRow :=
  {b with name := titleCaseFirst domain,
          description := "Extracting brand information from " ++ domain
            ++ "...",
          logo_url := "https://logo.clearbit.com/" ++ domain,
          metadata := placeholderMetadata domain extractJobId,
          crawl_status := "extracting", updated_at := some clock.nowIso}

/-- The fresh placeholder brand row inserted when none exists
(pipeline.ts lines 106-125). -/
def newBrandRow (newId domain extractJobId : String) (clock : Clock) :
    BrandRow :=
  {id := newId, primary_domain := domain, name := titleCaseFirst domain,
   description := "Extracting brand information from " ++ domain ++ "...",
   logo_url := "https://logo.clearbit.com/" ++ domain,
   metadata := placeholderMetadata domain extractJobId,
   crawl_status := "extracting", is_public := true, owner_id := none,
   updated_at := some clock.nowIso}

/-- Result shape of `startAsyncBrandPipeline` (async-jobs lines
78-82). -/
structure AsyncPipelineResult where
  mapJobId : Option String
  batchJobId : Option String
  error : Option String
deriving DecidableEq, Repr

/-- External outcomes of one orchestrator invocation: the extraction
job id (none on launch failure), whether the brand update reports an
error, the insert error message when the insert throws, the mapping
upsert error, and the async pipeline result. -/
structure PipelineEnv where
  extractJobId : Option String
  brandUpdateFails : Bool
  brandInsertError : Option String
  mappingUpsertError : Option String
  asyncResult : AsyncPipelineResult
deriving DecidableEq, Repr

/-- The response of `processUnifiedBrandDiscovery` (pipeline.ts lines
226-232 and the failure returns). -/
structure PipelineResponse where
  success : Bool
  brand : Option BrandRow
  mapping : Option MappingRow
  error : Option String
  details : Option String
  extractJobId : Option String
deriving DecidableEq, Repr

/-- The catch-block message mangling of the orchestrator (pipeline.ts
lines 240-249). -/
def pipelineErrorMessage (msg : String) : String :=
  if strHas "PGRST116" msg then
    "Database record not found - created new brand instead"
  else if strHas "extract" msg then
    "Failed to extract brand information from website"
  else msg

/-- Step 4 of the orchestrator (pipeline.ts lines 192-220): on an async
launch error, mark the mapping row failed with that error; no other
database effect. -/
def launchAsyncStep (asyncError : Option String) (mappingId : String)
    (db : Db) : Db :=
  match asyncError with
  | some e =>
    let newMappings := updateRows (fun m => m.id == mappingId)
      (fun m => {m with status := "failed", error_message := some e})
      db.mappings
    {db with mappings := newMappings}
  | none => db

/-- Steps 3-4 of the orchestrator after the brand row is settled
(pipeline.ts lines 138-232): upsert the mapping (a reported upsert error
returns the failure response), launch the async pipeline, mark the
mapping failed on a launch error, and return overall success with the
brand and mapping objects. -/
def pipelineAfterBrand (domain extractJobId newMappingId : String)
    (env : PipelineEnv) (clock : Clock) (brand : BrandRow) (db2 : Db) :
    PipelineResponse × Db :=
  match env.mappingUpsertError with
  | some _ =>
    ({success := false, brand := none, mapping := none,
      error := some "Failed to create progress tracking", details := none,
      extractJobId := none}, db2)
  | none =>
    let md := upsertMapping brand.id domain newMappingId clock db2
    let db4 := launchAsyncStep env.asyncResult.error md.1.id md.2
    ({success := true, brand := some brand, mapping := some md.1,
      error := none, details := none, extractJobId := some extractJobId},
      db4)

/-- Embedding of `processUnifiedBrandDiscovery` (pipeline.ts lines
11-257): abort when the extraction job did not start; find the public
ownerless brand for the domain and update it (an update error falls
through to the insert; an insert error is a throw caught into the
failure response); then run the mapping and async steps. -/
def processUnifiedBrandDiscovery (domain : String) (env : PipelineEnv)
    (newBrandId newMappingId : String) (clock : Clock) (db : Db) :
    PipelineResponse × Db :=
  match env.extractJobId with
  | none =>
    ({success := false, brand := none, mapping := none,
      error := some "Failed to start brand extraction", details := none,
      extractJobId := none}, db)
  | some extractJobId =>
    match db.brands.find?
        (fun b => b.primary_domain == domain && b.is_public &&
          b.owner_id == none) with
    | some ex =>
      if env.brandUpdateFails then
        match env.brandInsertError with
        | some msg =>
          ({success := false, brand := none, mapping := none,
            error := some (pipelineErrorMessage msg), details := some msg,
            extractJobId := none}, db)
        | none =>
          let nb := newBrandRow newBrandId domain extractJobId clock
          pipelineAfterBrand domain extractJobId newMappingId env clock nb
            {db with brands := db.brands ++ [nb]}
      else
        let newBrands := updateRows (fun b => b.id == ex.id)
          (brandPlaceholderUpdate domain extractJobId clock) db.brands
        pipelineAfterBrand domain extractJobId newMappingId env clock
          (brandPlaceholderUpdate domain extractJobId clock ex)
          {db with brands := newBrands}
    | none =>
      match env.brandInsertError with
      | some msg =>
        ({success := false, brand := none, mapping := none,
          error := some (pipelineErrorMessage msg), details := some msg,
          extractJobId := none}, db)
      | none =>
        let nb := newBrandRow newBrandId domain extractJobId clock
        pipelineAfterBrand domain extractJobId newMappingId env clock nb
          {db with brands := db.brands ++ [nb]}

/-- Demonstration mapping row after the URL-storage step (progress
40). -/
def c4Mapping : MappingRow :=
  {id := "m1", brand_id := "b1", domain := "example.com",
   status := "mapping_urls", progress_percentage := 40, current_step := "",
   error_message := none, started_at := none, completed_at := none,
   updated_at := none, urls_discovered := none, company_info_count := none,
   blog_count := none, docs_count := none, ecommerce_count := none,
   total_urls := none}

/-- Demonstration database for the out-of-order delivery experiment. -/
def c4Db : Db := {brands := [], brand_urls := [], mappings := [c4Mapping]}

/-- Demonstration `crawl.completed` event. -/
def c4Completed : FirecrawlWebhookEvent :=
  {success := true, type := "crawl.completed", id := "job1", data := [],
   metadata := {brandId := some "b1", domain := some "example.com",
                mappingId := some "m1", jobType := none},
   error := none}

/-- Demonstration `crawl.started` event delivered after the completed
one. -/
def c4Started : FirecrawlWebhookEvent :=
  {c4Completed with type := "crawl.started", id := "job1"}

/-- Demonstration environment: extraction started, brand and mapping
steps succeed, async pipeline launch fails. -/
def c7Env : PipelineEnv :=
  {extractJobId := some "ej1", brandUpdateFails := false,
   brandInsertError := none, mappingUpsertError := none,
   asyncResult := {mapJobId := none, batchJobId := none,
                   error := some "No URLs discovered during mapping"}}

/-- The body of a `/cleanup-r2` request. -/
structure CleanupRequest where
  brandsToKeep : Option (List String)
deriving DecidableEq, Repr

/-- Observable outcome of the cleanup handler: the bucket after the
deletions, the deleted brand folders, and the delete calls it joined,
one batch per `Promise.all`. -/
structure CleanupOutcome where
  bucket : R2Bucket
  deletedFolders : List String
  deleteBatches : List (List String)
deriving DecidableEq, Repr

/-- Insertion-ordered set insert, the `Set.add` of the folder scan. -/
def dedupAppend (acc : List String) (x : String) : List String :=
  if acc.contains x then acc else acc ++ [x]

/-- One step of the brand-folder scan: record the second path segment
of a key of the form `brands/{d}...` (split at `/`, at least two
segments, first segment `brands`). -/
def folderScanStep (acc : List String) (obj : R2ObjectEntry) :
    List String :=
  match jsSplit '/' obj.key.data with
  | p0 :: p1 :: _ =>
    if p0 = "brands".data then dedupAppend acc ⟨p1⟩ else acc
  | _ => acc

/-- The brand-folder scan of `handleR2Cleanup` (worker entry file lines
894-901): the second path segment of every key of the form
`brands/{d}/...` (or exactly `brands/{d}`), deduplicated in insertion
order. -/
def brandFoldersOf (objects : List R2ObjectEntry) : List String :=
  objects.foldl folderScanStep []

/-- Sequential effect of the joined per-key deletes of one folder. -/
def deleteKeys (b : R2Bucket) (ks : List String) : R2Bucket :=
  ks.foldl (fun bb k => bb.deleteKey k) b

/-- One iteration of the folder loop of `handleR2Cleanup` (worker entry
file lines 906-935): folders in the keep-list are skipped; otherwise all
objects currently listed under `brands/{d}/` are deleted in one joined
batch and the folder is recorded as deleted (an empty listing records
nothing). -/
def deleteFolderStep (keep : List String) (outcome : CleanupOutcome)
    (brandFolder : String) : CleanupOutcome :=
  if keep.contains brandFolder then outcome
  else
    let brandObjects := outcome.bucket.listKeys
      ("brands/" ++ brandFolder ++ "/")
    if brandObjects.isEmpty then outcome
    else
      {bucket := deleteKeys outcome.bucket
         (brandObjects.map (fun o => o.key)),
       deletedFolders := outcome.deletedFolders ++ [brandFolder],
       deleteBatches := outcome.deleteBatches ++
         [brandObjects.map (fun o => o.key)]}

/-- Embedding of `handleR2Cleanup` (worker entry file lines 867-966):
default keep-list `[nosana.io, mastra]`, list the `brands/` namespace,
scan the brand folders, and delete every folder not in the keep-list,
folder by folder.  Each folder is deleted in a single `Promise.all`
batch over everything listed under it; the handler never calls
`R2ContentUploader.deleteBrandContent` and so never chunks deletes in
batches of 100. -/
def handleR2Cleanup (request : CleanupRequest) (bucket : R2Bucket) :
    CleanupOutcome :=
  let brandsToKeep := request.brandsToKeep.getD ["nosana.io", "mastra"]
  let listResult := bucket.listKeys "brands/"
  if listResult.isEmpty then ⟨bucket, [], []⟩
  else (brandFoldersOf listResult).foldl (deleteFolderStep brandsToKeep)
    ⟨bucket, [], []⟩

/-- Deletion predicate of the survivor characterization: the object lies
under a discovered brand folder that is not kept. -/
def cleanupShouldDelete (keep folders : List String) (o : R2ObjectEntry) :
    Bool :=
  folders.any (fun d => !(keep.contains d) &&
    strLead ("brands/" ++ d ++ "/") o.key)

/-- Bucket with 101 objects under one brand folder. -/
def c8Bucket : R2Bucket :=
  ⟨(List.range 101).map (fun i => ⟨"brands/x/o" ++ toString i, 1⟩)⟩

theorem jsSplit_ne_nil (c : Char) (s : List Char) : jsSplit c s ≠ [] := by
  induction s with
  | nil => simp [jsSplit]
  | cons x xs ih =>
    by_cases h : x = c
    · simp [jsSplit, h]
    · simp only [jsSplit, if_neg h]
      cases hs : jsSplit c xs with
      | nil => simp
      | cons p ps => simp

theorem joinWith_jsSplit (c : Char) (s : List Char) :
    joinWith c (jsSplit c s) = s := by
  induction s with
  | nil => simp [jsSplit, joinWith]
  | cons x xs ih =>
    by_cases h : x = c
    · subst h
      simp only [jsSplit, if_pos rfl]
      cases hs : jsSplit x xs with
      | nil => exact absurd hs (jsSplit_ne_nil x xs)
      | cons p ps =>
        rw [hs] at ih
        simp [joinWith, ih]
    · simp only [jsSplit, if_neg h]
      cases hs : jsSplit c xs with
      | nil => exact absurd hs (jsSplit_ne_nil c xs)
      | cons p ps =>
        rw [hs] at ih
        cases ps with
        | nil => simp_all [joinWith]
        | cons q qs => simp_all [joinWith]

theorem jsSplit_pieces_sep_free (c : Char) (s : List Char) :
    ∀ p ∈ jsSplit c s, c ∉ p := by
  induction s with
  | nil => simp [jsSplit]
  | cons x xs ih =>
    by_cases h : x = c
    · simp only [jsSplit, if_pos h, List.mem_cons]
      rintro p (rfl | hp)
      · simp
      · exact ih p hp
    · simp only [jsSplit, if_neg h]
      cases hs : jsSplit c xs with
      | nil => exact absurd hs (jsSplit_ne_nil c xs)
      | cons q qs =>
        rw [hs] at ih
        intro p hp
        rcases List.mem_cons.mp hp with rfl | hp'
        · intro hc
          rcases List.mem_cons.mp hc with rfl | hc'
          · exact h rfl
          · exact ih q (by simp) hc'
        · exact ih p (by simp [hp'])

theorem jsSplit_sep_free (c : Char) (s : List Char) (h : c ∉ s) :
    jsSplit c s = [s] := by
  induction s with
  | nil => simp [jsSplit]
  | cons x xs ih =>
    have hx : x ≠ c := fun hh => h (by simp [hh])
    have hxs : c ∉ xs := fun hh => h (by simp [hh])
    simp only [jsSplit, if_neg hx, ih hxs]

theorem jsSplit_append_sep (c : Char) (a b : List Char) (ha : c ∉ a) :
    jsSplit c (a ++ c :: b) = a :: jsSplit c b := by
  induction a with
  | nil => simp [jsSplit]
  | cons x xs ih =>
    have hx : x ≠ c := fun hh => ha (by simp [hh])
    have hxs : c ∉ xs := fun hh => ha (by simp [hh])
    simp only [List.cons_append, jsSplit, if_neg hx]
    rw [List.append_eq, ih hxs]

theorem joinWith_length_gt (c : Char) (q : List Char) (rs : List (List Char))
    (h : rs ≠ []) : q.length < (joinWith c (q :: rs)).length := by
  cases rs with
  | nil => exact absurd rfl h
  | cons r rs' =>
    simp only [joinWith, List.length_append, List.length_cons]
    omega

theorem leadChars_append (p t : List Char) : leadChars p (p ++ t) = true := by
  induction p with
  | nil => simp [leadChars]
  | cons x xs ih => simp [leadChars, ih]

theorem leadChars_iff (p s : List Char) :
    leadChars p s = true ↔ ∃ t, s = p ++ t := by
  constructor
  · intro h
    induction p generalizing s with
    | nil => exact ⟨s, rfl⟩
    | cons x xs ih =>
      cases s with
      | nil => simp [leadChars] at h
      | cons y ys =>
        simp only [leadChars, Bool.and_eq_true, decide_eq_true_eq] at h
        obtain ⟨rfl, h2⟩ := h
        obtain ⟨t, ht⟩ := ih ys h2
        exact ⟨t, by simp [ht]⟩
  · rintro ⟨t, rfl⟩
    exact leadChars_append p t

theorem leadChars_trans_len (p q s : List Char)
    (hp : leadChars p s = true) (hq : leadChars q s = true)
    (hlen : p.length ≤ q.length) : leadChars p q = true := by
  obtain ⟨t, ht⟩ := (leadChars_iff p s).mp hp
  obtain ⟨u, hu⟩ := (leadChars_iff q s).mp hq
  rw [leadChars_iff]
  refine ⟨q.drop p.length, ?_⟩
  have : p ++ t = q ++ u := ht ▸ hu
  have hpq : p = (q ++ u).take p.length := by
    rw [← this, List.take_append_of_le_length (le_refl p.length)]
    simp
  rw [List.take_append_of_le_length hlen] at hpq
  nth_rewrite 1 [hpq]
  exact (List.take_append_drop p.length q).symm

theorem natToHexAux_fuel (n : Nat) : ∀ fuel, n < fuel →
    natToHexAux fuel n = natToHexAux (n + 1) n := by
  induction n using Nat.strong_induction_on with
  | _ n ih =>
    intro fuel hf
    cases fuel with
    | zero => omega
    | succ f =>
      by_cases h16 : n < 16
      · simp [natToHexAux, h16]
      · have hdiv : n / 16 < n := Nat.div_lt_self (by omega) (by omega)
        simp only [natToHexAux, if_neg h16]
        rw [ih (n / 16) hdiv f (by omega), ih (n / 16) hdiv n (by omega)]

/-- Unfolding equation for `natToHex`. -/
theorem natToHex_unfold (n : Nat) :
    natToHex n = if n < 16 then [hexDigitChar n]
      else natToHex (n / 16) ++ [hexDigitChar (n % 16)] := by
  unfold natToHex
  by_cases h16 : n < 16
  · simp [natToHexAux, h16]
  · have hdiv : n / 16 < n := Nat.div_lt_self (by omega) (by omega)
    simp only [natToHexAux, if_neg h16]
    rw [natToHexAux_fuel (n / 16) n hdiv]
    rfl

theorem hexDigitChar_ne_eqsign : ∀ n < 16, hexDigitChar n ≠ '=' := by decide

theorem natToHex_mem (n : Nat) :
    ∀ c ∈ natToHex n, ∃ m, m < 16 ∧ c = hexDigitChar m := by
  induction n using Nat.strong_induction_on with
  | _ n ih =>
    rw [natToHex_unfold]
    split
    · next h => intro c hc; simp at hc; exact ⟨n, h, hc⟩
    · next h =>
      intro c hc
      rcases List.mem_append.mp hc with h1 | h2
      · exact ih (n / 16) (Nat.div_lt_self (by omega) (by omega)) c h1
      · simp at h2
        exact ⟨n % 16, Nat.mod_lt _ (by omega), h2⟩

theorem jsHexByte_ne_eqsign (b : Nat) : ∀ c ∈ jsHexByte b, c ≠ '=' := by
  intro c hc
  have key : ∀ d ∈ natToHex b, d ≠ '=' := by
    intro d hd
    obtain ⟨m, hm, rfl⟩ := natToHex_mem b d hd
    exact hexDigitChar_ne_eqsign m hm
  unfold jsHexByte at hc
  cases hnb : natToHex b with
  | nil => rw [hnb] at hc; simp [padStart2] at hc; subst hc; decide
  | cons d rest =>
    cases rest with
    | nil =>
      rw [hnb] at hc
      simp only [padStart2, List.mem_cons, List.not_mem_nil, or_false] at hc
      rcases hc with rfl | rfl
      · decide
      · exact key c (by rw [hnb]; simp)
    | cons d2 rest2 =>
      rw [hnb] at hc
      simp only [padStart2] at hc
      exact key c (by rw [hnb]; exact hc)

theorem hexEncode_no_eqsign (bytes : List Nat) : '=' ∉ hexEncode bytes := by
  intro h
  unfold hexEncode at h
  rw [List.mem_flatten] at h
  obtain ⟨l, hl, hc⟩ := h
  rw [List.mem_map] at hl
  obtain ⟨b, _, rfl⟩ := hl
  exact jsHexByte_ne_eqsign b '=' hc rfl

theorem jsHexByte_eq_digits (b : Nat) (hb : b < 256) :
    jsHexByte b = [hexDigitChar (b / 16), hexDigitChar (b % 16)] := by
  unfold jsHexByte
  by_cases h : b < 16
  · rw [natToHex_unfold, if_pos h]
    have h1 : b / 16 = 0 := Nat.div_eq_of_lt h
    have h2 : b % 16 = b := Nat.mod_eq_of_lt h
    rw [h1, h2]
    rfl
  · rw [natToHex_unfold, if_neg h]
    have hd : b / 16 < 16 := by omega
    rw [natToHex_unfold, if_pos hd]
    rfl

theorem hexDigitChar_inj : ∀ a < 16, ∀ b < 16,
    hexDigitChar a = hexDigitChar b → a = b := by decide

theorem jsHexByte_inj (a b : Nat) (ha : a < 256) (hb : b < 256)
    (h : jsHexByte a = jsHexByte b) : a = b := by
  rw [jsHexByte_eq_digits a ha, jsHexByte_eq_digits b hb] at h
  simp only [List.cons.injEq, and_true] at h
  have h1 := hexDigitChar_inj (a / 16) (by omega) (b / 16) (by omega) h.1
  have h2 := hexDigitChar_inj (a % 16) (by omega) (b % 16) (by omega) h.2
  omega

theorem hexEncode_inj (xs ys : List Nat)
    (hx : ∀ x ∈ xs, x < 256) (hy : ∀ y ∈ ys, y < 256)
    (h : hexEncode xs = hexEncode ys) : xs = ys := by
  induction xs generalizing ys with
  | nil =>
    cases ys with
    | nil => rfl
    | cons y ys' =>
      exfalso
      unfold hexEncode at h
      simp only [List.map_nil, List.flatten_nil, List.map_cons,
        List.flatten_cons] at h
      rw [jsHexByte_eq_digits y (hy y (by simp))] at h
      simp at h
  | cons x xs' ih =>
    cases ys with
    | nil =>
      exfalso
      unfold hexEncode at h
      simp only [List.map_nil, List.flatten_nil, List.map_cons,
        List.flatten_cons] at h
      rw [jsHexByte_eq_digits x (hx x (by simp))] at h
      simp at h
    | cons y ys' =>
      unfold hexEncode at h
      simp only [List.map_cons, List.flatten_cons] at h
      have hlen : (jsHexByte x).length = (jsHexByte y).length := by
        rw [jsHexByte_eq_digits x (hx x (by simp)),
          jsHexByte_eq_digits y (hy y (by simp))]
        rfl
      obtain ⟨h1, h2⟩ := List.append_inj h hlen
      have hxy := jsHexByte_inj x y (hx x (by simp)) (hy y (by simp)) h1
      subst hxy
      have hrec := ih ys' (fun a ha => hx a (List.mem_cons_of_mem _ ha))
        (fun a ha => hy a (List.mem_cons_of_mem _ ha)) h2
      rw [hrec]

/-- Acceptance characterization: verification succeeds for a present
header exactly when splitting it at `=` yields `sha256` followed by the
expected hex tag (further pieces are ignored by the destructuring). -/
theorem verifyWebhookSignature_true_iff
    (mac : List Char → List Char → List Nat) (secret sig body : List Char) :
    (verifyWebhookSignature mac secret (some sig) body).isValid = true ↔
    ∃ rest, jsSplit '=' sig =
      "sha256".data :: hexEncode (mac secret body) :: rest := by
  constructor
  · intro h
    simp only [verifyWebhookSignature] at h
    split at h
    · simp at h
    · next halg =>
      split at h
      · next a hp rest heq =>
        simp only [Bool.and_eq_true, beq_iff_eq] at h
        have ha : a = "sha256".data := by
          rw [heq] at halg
          simpa using halg
        exact ⟨rest, by rw [heq, ha, h.2]⟩
      · simp at h
  · rintro ⟨rest, hsplit⟩
    simp [verifyWebhookSignature, hsplit]

/-- C5: webhook signature verification decides acceptance exactly.  With
the external HMAC modelled as a byte-valued function `mac`: (1) a request
whose header carries `sha256=` followed by the hex of the correct tag
passes; (2) a request with no signature header is rejected; (3) any
same-length change to the signature header (in particular any single-byte
mutation) fails; (4) any change to the body that changes its tag (as any
single-byte mutation of the body does, for a collision-free MAC) fails. -/
theorem C5_signature_verification_decides
    (mac : List Char → List Char → List Nat)
    (secret body body' sig' : List Char)
    (hbytes : ∀ s b, ∀ x ∈ mac s b, x < 256)
    (hlen : sig'.length =
      ("sha256".data ++ '=' :: hexEncode (mac secret body)).length)
    (hne : sig' ≠ "sha256".data ++ '=' :: hexEncode (mac secret body))
    (hmac : mac secret body' ≠ mac secret body) :
    (verifyWebhookSignature mac secret
      (some ("sha256".data ++ '=' :: hexEncode (mac secret body)))
      body).isValid = true ∧
    (verifyWebhookSignature mac secret none body).isValid = false ∧
    (verifyWebhookSignature mac secret (some sig') body).isValid = false ∧
    (verifyWebhookSignature mac secret
      (some ("sha256".data ++ '=' :: hexEncode (mac secret body)))
      body').isValid = false := by
  have hsep : ('=' : Char) ∉ "sha256".data := by decide
  have hsplit_good : jsSplit '='
      ("sha256".data ++ '=' :: hexEncode (mac secret body)) =
      ["sha256".data, hexEncode (mac secret body)] := by
    rw [jsSplit_append_sep '=' _ _ hsep,
      jsSplit_sep_free '=' _ (hexEncode_no_eqsign _)]
  refine ⟨?_, rfl, ?_, ?_⟩
  · rw [verifyWebhookSignature_true_iff]
    exact ⟨[], hsplit_good⟩
  · rw [Bool.eq_false_iff]
    intro htrue
    obtain ⟨rest, hsplit⟩ :=
      (verifyWebhookSignature_true_iff mac secret sig' body).mp htrue
    have hjoin := joinWith_jsSplit '=' sig'
    rw [hsplit] at hjoin
    cases rest with
    | nil =>
      simp only [joinWith] at hjoin
      exact hne hjoin.symm
    | cons r rs =>
      have hgt := joinWith_length_gt '='
        (hexEncode (mac secret body)) (r :: rs) (by simp)
      have hlen2 : sig'.length = "sha256".data.length + 1 +
          (joinWith '=' (hexEncode (mac secret body) :: r :: rs)).length := by
        rw [← hjoin]
        simp [joinWith]
        omega
      simp only [List.length_append, List.length_cons] at hlen
      simp only [List.length_cons] at hlen2 hgt
      omega
  · rw [Bool.eq_false_iff]
    intro htrue
    obtain ⟨rest, hsplit⟩ :=
      (verifyWebhookSignature_true_iff mac secret _ body').mp htrue
    rw [hsplit_good] at hsplit
    simp only [List.cons.injEq] at hsplit
    have heq := hsplit.2.1
    exact hmac (hexEncode_inj _ _ (hbytes secret body') (hbytes secret body)
      heq.symm)

/-- Witness for C5 at a concrete secret, body, mutated signature and
mutated body. -/
theorem C5_signature_verification_decides_witness :
    (verifyWebhookSignature macDemo "k".data
      (some ("sha256".data ++ '=' :: hexEncode (macDemo "k".data "ab".data)))
      "ab".data).isValid = true ∧
    (verifyWebhookSignature macDemo "k".data none "ab".data).isValid = false ∧
    (verifyWebhookSignature macDemo "k".data
      (some "sha256=03".data) "ab".data).isValid = false ∧
    (verifyWebhookSignature macDemo "k".data
      (some ("sha256".data ++ '=' :: hexEncode (macDemo "k".data "ab".data)))
      "abc".data).isValid = false :=
  C5_signature_verification_decides macDemo "k".data "ab".data "abc".data
    "sha256=03".data
    (fun s b x hx => by
      simp [macDemo] at hx
      omega)
    (by decide) (by decide) (by decide)

theorem decodeURIComponentAscii_id (s : List Char) (h : '%' ∉ s) :
    decodeURIComponentAscii s = some s := by
  induction s with
  | nil => rfl
  | cons c rest ih =>
    have hc : c ≠ '%' := fun hh => h (by simp [hh])
    have hrest : '%' ∉ rest := fun hh => h (by simp [hh])
    unfold decodeURIComponentAscii
    rw [if_neg hc, ih hrest]
    rfl

theorem beforeChar_of_not_mem (c : Char) (s : List Char) (h : c ∉ s) :
    beforeChar c s = s := by
  induction s with
  | nil => rfl
  | cons x xs ih =>
    have hx : x ≠ c := fun hh => h (by simp [hh])
    have hxs : c ∉ xs := fun hh => h (by simp [hh])
    simp [beforeChar, hx, ih hxs]

theorem normalizeUrl_fixed (s : List Char) (h : NormalizedShape s) :
    normalizeUrl s = s := by
  obtain ⟨hne, hpct, hslash, hcolon, hdot, hlow, htrim, hwww, http, https⟩ := h
  unfold normalizeUrl
  rw [if_neg hne, decodeURIComponentAscii_id s hpct]
  simp only [stripScheme, https, http, Bool.false_eq_true, if_false,
    stripWww, hwww, beforeChar_of_not_mem '/' s hslash,
    beforeChar_of_not_mem ':' s hcolon, hlow, htrim]
  rw [if_neg]
  push_neg
  exact ⟨hne, hdot⟩

/-- C6 counterexample: `normalizeUrl` is not idempotent; a second pass
strips a further `www.` layer from `www.www.example.com`. -/
theorem C6_normalizeUrl_not_idempotent :
    normalizeUrl "www.www.example.com".data = "www.example.com".data ∧
    normalizeUrl "www.example.com".data = "example.com".data ∧
    normalizeUrl (normalizeUrl "www.www.example.com".data) ≠
      normalizeUrl "www.www.example.com".data := by decide

/-- C6 amended: `normalizeUrl` is idempotent on every input whose first
pass lands in the fixed-point shape (nonempty, escape-free, no slash or
colon, dotted, lowercase, trimmed, not led by `www.` or a scheme); in
general a second pass can strip one further `www.` or scheme layer. -/
theorem C6_normalizeUrl_idempotent_amended (x : List Char)
    (h : NormalizedShape (normalizeUrl x)) :
    normalizeUrl (normalizeUrl x) = normalizeUrl x :=
  normalizeUrl_fixed (normalizeUrl x) h

/-- Witness for the amended C6 at a concrete input. -/
theorem C6_normalizeUrl_idempotent_amended_witness :
    NormalizedShape (normalizeUrl "Example.com/about".data) ∧
    normalizeUrl (normalizeUrl "Example.com/about".data) =
      normalizeUrl "Example.com/about".data :=
  ⟨by decide, C6_normalizeUrl_idempotent_amended "Example.com/about".data
    (by decide)⟩

theorem succCount_append (rs ss : List R2UploadResult) :
    succCount (rs ++ ss) = succCount rs + succCount ss := by
  simp [succCount, List.filter_append]

theorem failCount_append (rs ss : List R2UploadResult) :
    failCount (rs ++ ss) = failCount rs + failCount ss := by
  simp [failCount, List.filter_append]

theorem sizeSum_append (rs ss : List R2UploadResult) :
    sizeSum (rs ++ ss) = sizeSum rs + sizeSum ss := by
  simp [sizeSum, List.filter_append]

theorem succCount_add_failCount (rs : List R2UploadResult) :
    succCount rs + failCount rs = rs.length := by
  induction rs with
  | nil => rfl
  | cons r rest ih =>
    by_cases h : r.success = true <;>
      simp [succCount, failCount, List.filter_cons, h] <;>
      simp [succCount, failCount] at ih <;> omega

theorem uploadStep_inv (bp : String) (options : R2UploadOptions)
    (clock : Clock) (putOks : Nat → Bool) (acc : UploadAcc)
    (contentItem : UploadContentItem) (index : Nat)
    (h : UploadAccInv acc) :
    UploadAccInv (uploadStep bp options clock putOks acc contentItem index) ∧
    (uploadStep bp options clock putOks acc contentItem index).results.length
      = acc.results.length + 1 := by
  obtain ⟨h1, h2, h3⟩ := h
  unfold uploadStep
  by_cases hs : (uploadSingleContent acc.bucket bp contentItem index options
      clock (putOks index)).1.success = true
  · simp only [hs, if_true]
    refine ⟨⟨?_, ?_, ?_⟩, by simp⟩
    · rw [succCount_append, h1]
      simp [succCount, List.filter_cons, hs]
    · rw [failCount_append, h2]
      simp [failCount, List.filter_cons, hs]
    · rw [sizeSum_append, h3]
      simp [sizeSum, List.filter_cons, hs]
  · rw [Bool.not_eq_true] at hs
    simp only [hs, Bool.false_eq_true, if_false]
    refine ⟨⟨?_, ?_, ?_⟩, by simp⟩
    · rw [succCount_append, h1]
      simp [succCount, List.filter_cons]
    · rw [failCount_append, h2]
      simp [failCount, List.filter_cons]
    · rw [sizeSum_append, h3]
      simp [sizeSum, List.filter_cons]

theorem uploadItems_inv (bp : String) (options : R2UploadOptions)
    (clock : Clock) (putOks : Nat → Bool)
    (items : List UploadContentItem) (index : Nat) (acc : UploadAcc)
    (h : UploadAccInv acc) :
    UploadAccInv (uploadItems bp options clock putOks items index acc) ∧
    (uploadItems bp options clock putOks items index acc).results.length =
      acc.results.length + items.length := by
  induction items generalizing index acc with
  | nil => exact ⟨h, by simp [uploadItems]⟩
  | cons item rest ih =>
    obtain ⟨hstep, hlen⟩ :=
      uploadStep_inv bp options clock putOks acc item index h
    obtain ⟨hinv', hlen'⟩ := ih (index + 1)
      (uploadStep bp options clock putOks acc item index) hstep
    refine ⟨hinv', ?_⟩
    rw [uploadItems, hlen', hlen]
    simp
    omega

/-- C9: for every run of `uploadBrandContent` on a present content list
that does not throw, the response satisfies `summary.total = n`,
`results.length = n`, `successful + failed = n`, `totalSize` equals the
sum of the sizes of the successful results, and the overall `success`
flag is true exactly when `successful > 0`. -/
theorem C9_uploadBrandContent_response_invariants
    (request : R2UploadRequest) (clock : Clock) (putOks : Nat → Bool)
    (bucket : R2Bucket) (content : List UploadContentItem)
    (resp : R2UploadResponse) (bucketAfter : R2Bucket)
    (hc : request.content = some content)
    (hok : uploadBrandContent request clock putOks bucket =
      .ok (resp, bucketAfter)) :
    resp.summary.total = content.length ∧
    resp.results.length = content.length ∧
    resp.summary.successful + resp.summary.failed = content.length ∧
    resp.summary.totalSize = sizeSum resp.results ∧
    (resp.success = true ↔ 0 < resp.summary.successful) := by
  unfold uploadBrandContent at hok
  rw [hc] at hok
  simp only at hok
  by_cases hz : content.length = 0
  · rw [if_pos hz] at hok
    simp only [Except.ok.injEq, Prod.mk.injEq] at hok
    obtain ⟨h1, h2⟩ := hok
    subst h1
    refine ⟨rfl, by simpa using hz.symm, by simpa using hz.symm, rfl, by simp⟩
  · rw [if_neg hz] at hok
    simp only [Except.ok.injEq, Prod.mk.injEq] at hok
    obtain ⟨h1, h2⟩ := hok
    subst h1
    obtain ⟨⟨hs, hf, ht⟩, hlen⟩ := uploadItems_inv
      (getBrandR2Pref request.domain) request.options clock putOks content 0
      {results := [], successful := 0, failed := 0, totalSize := 0,
       bucket := bucket} ⟨rfl, rfl, rfl⟩
    simp only [List.length_nil, Nat.zero_add] at hlen
    have hsf := succCount_add_failCount
      (uploadItems (getBrandR2Pref request.domain) request.options clock
        putOks content 0
        {results := [], successful := 0, failed := 0, totalSize := 0,
         bucket := bucket}).results
    have h3 : (uploadItems (getBrandR2Pref request.domain) request.options
        clock putOks content 0
        {results := [], successful := 0, failed := 0, totalSize := 0,
         bucket := bucket}).successful +
        (uploadItems (getBrandR2Pref request.domain) request.options clock
          putOks content 0
          {results := [], successful := 0, failed := 0, totalSize := 0,
           bucket := bucket}).failed = content.length := by
      rw [hs, hf, hsf]
      exact hlen
    exact ⟨rfl, hlen, h3, ht, by simp⟩

/-- Witness for C9 at a concrete two-item request with one failing put. -/
theorem C9_uploadBrandContent_response_invariants_witness :
    (uploadRespOf (uploadBrandContent c9Request demoClock c9PutOks
      ⟨[]⟩)).summary.total = [demoItemOk, demoItemFail].length ∧
    (uploadRespOf (uploadBrandContent c9Request demoClock c9PutOks
      ⟨[]⟩)).results.length = [demoItemOk, demoItemFail].length ∧
    (uploadRespOf (uploadBrandContent c9Request demoClock c9PutOks
      ⟨[]⟩)).summary.successful +
      (uploadRespOf (uploadBrandContent c9Request demoClock c9PutOks
        ⟨[]⟩)).summary.failed = [demoItemOk, demoItemFail].length ∧
    (uploadRespOf (uploadBrandContent c9Request demoClock c9PutOks
      ⟨[]⟩)).summary.totalSize =
      sizeSum (uploadRespOf (uploadBrandContent c9Request demoClock c9PutOks
        ⟨[]⟩)).results ∧
    ((uploadRespOf (uploadBrandContent c9Request demoClock c9PutOks
      ⟨[]⟩)).success = true ↔
      0 < (uploadRespOf (uploadBrandContent c9Request demoClock c9PutOks
        ⟨[]⟩)).summary.successful) :=
  C9_uploadBrandContent_response_invariants c9Request demoClock c9PutOks ⟨[]⟩
    [demoItemOk, demoItemFail]
    (uploadRespOf (uploadBrandContent c9Request demoClock c9PutOks ⟨[]⟩))
    (uploadBucketOf (uploadBrandContent c9Request demoClock c9PutOks ⟨[]⟩))
    rfl rfl

/-- C10: `uploadBrandContent` reads `request.content.length` while
building the initial response, before the emptiness guard, so an absent
content field throws a `TypeError` instead of returning the zero
response; the empty-results early return is reachable exactly when the
content field is a present empty list. -/
theorem C10_uploadBrandContent_undefined_content_throws
    (request : R2UploadRequest) (clock : Clock) (putOks : Nat → Bool)
    (bucket : R2Bucket) :
    (request.content = none →
      uploadBrandContent request clock putOks bucket =
        .error "TypeError: request.content is undefined") ∧
    (∀ content, request.content = some content →
      (uploadResultsOf (uploadBrandContent request clock putOks bucket) =
        some [] ↔ content = [])) := by
  constructor
  · intro hn
    unfold uploadBrandContent
    rw [hn]
  · intro content hc
    unfold uploadBrandContent
    rw [hc]
    simp only
    by_cases hz : content.length = 0
    · rw [if_pos hz]
      simp only [uploadResultsOf]
      simp [List.length_eq_zero.mp hz]
    · rw [if_neg hz]
      simp only [uploadResultsOf]
      obtain ⟨_, hlen⟩ := uploadItems_inv (getBrandR2Pref request.domain)
        request.options clock putOks content 0
        {results := [], successful := 0, failed := 0, totalSize := 0,
         bucket := bucket} ⟨rfl, rfl, rfl⟩
      simp only [List.length_nil, Nat.zero_add] at hlen
      constructor
      · intro hsome
        exfalso
        apply hz
        have hnil : (uploadItems (getBrandR2Pref request.domain)
            request.options clock putOks content 0
            {results := [], successful := 0, failed := 0, totalSize := 0,
             bucket := bucket}).results = [] := by
          simpa using hsome
        rw [hnil] at hlen
        simpa using hlen.symm
      · intro hcnil
        exact absurd (by rw [hcnil]; rfl) hz

/-- Witness for C10: the absent-content request throws; the two-item
request does not take the empty-results early return. -/
theorem C10_uploadBrandContent_undefined_content_throws_witness :
    uploadBrandContent c10RequestNone demoClock c9PutOks ⟨[]⟩ =
      .error "TypeError: request.content is undefined" ∧
    (uploadResultsOf (uploadBrandContent c9Request demoClock c9PutOks ⟨[]⟩) =
      some [] ↔ [demoItemOk, demoItemFail] = ([] : List UploadContentItem)) :=
  ⟨(C10_uploadBrandContent_undefined_content_throws c10RequestNone demoClock
      c9PutOks ⟨[]⟩).1 rfl,
   (C10_uploadBrandContent_undefined_content_throws c9Request demoClock
      c9PutOks ⟨[]⟩).2 [demoItemOk, demoItemFail] rfl⟩

/-- C2 (code bug): two successive uploads of the same (brandPrefix, url)
pair without `overwrite` both write.  `generateR2Key` embeds the call
time `Date.now()` in the key, so the second call (one millisecond later)
computes a fresh key, its existence check misses the object written by
the first call, and it stores a second object instead of
short-circuiting: after the two calls the bucket holds two objects whose
keys differ only in the timestamp suffix. -/
theorem C2_second_upload_writes_again :
    (uploadBucketOf (uploadBrandContent c2Request ⟨1000, "T"⟩ (fun _ => true)
      ⟨[]⟩)).objects.map R2ObjectEntry.key =
      ["brands/example.com/content/about/about-1000.md"] ∧
    (uploadBucketOf (uploadBrandContent c2Request ⟨1001, "T"⟩ (fun _ => true)
      (uploadBucketOf (uploadBrandContent c2Request ⟨1000, "T"⟩
        (fun _ => true) ⟨[]⟩)))).objects.map R2ObjectEntry.key =
      ["brands/example.com/content/about/about-1000.md",
       "brands/example.com/content/about/about-1001.md"] :=
  ⟨rfl, rfl⟩

/-- C1 counterexample: processing a page event writes the status
`scraped` to the matched row (the first committed update of
`handlePageScraped`, embedded as `scrapedUrlWrite`), and `scraped` is
not in the claimed status set. -/
theorem C1_page_event_writes_scraped :
    (scrapedUrlWrite c1Page demoClock c1Row).status = "scraped" ∧
    (updateRows (fun u => u.brand_id == "b1" &&
        u.url == "https://example.com/a")
      (scrapedUrlWrite c1Page demoClock) c1Db.brand_urls).map
        (fun u => u.status) = ["scraped"] ∧
    "scraped" ∉ claimedUrlStatuses := by decide

theorem urlStatusesOk_iff (rows : List BrandUrlRow) :
    urlStatusesOk rows = true ↔ ∀ u ∈ rows, u.status ∈ allowedUrlStatuses := by
  simp [urlStatusesOk, List.all_eq_true]

theorem updateRows_status_mem (p : BrandUrlRow → Bool)
    (f : BrandUrlRow → BrandUrlRow) (rows : List BrandUrlRow)
    (hrows : ∀ u ∈ rows, u.status ∈ allowedUrlStatuses)
    (hf : ∀ u, (f u).status ∈ allowedUrlStatuses) :
    ∀ u ∈ updateRows p f rows, u.status ∈ allowedUrlStatuses := by
  intro u hu
  unfold updateRows at hu
  rw [List.mem_map] at hu
  obtain ⟨w, hw, rfl⟩ := hu
  by_cases hp : p w = true
  · simpa [hp] using hf w
  · simp only [Bool.not_eq_true] at hp
    simpa [hp] using hrows w hw

theorem handleJobStarted_brand_urls (event : FirecrawlWebhookEvent)
    (db : Db) : (handleJobStarted event db).brand_urls = db.brand_urls := by
  unfold handleJobStarted
  dsimp only
  split <;> rfl

theorem handleJobCompleted_brand_urls (event : FirecrawlWebhookEvent)
    (clock : Clock) (db : Db) :
    (handleJobCompleted event clock db).brand_urls = db.brand_urls := by
  unfold handleJobCompleted
  dsimp only
  split <;> rfl

theorem handleExtractCompleted_brand_urls (event : FirecrawlWebhookEvent)
    (clock : Clock) (db : Db) :
    (handleExtractCompleted event clock db).brand_urls = db.brand_urls := by
  unfold handleExtractCompleted
  dsimp only
  split
  · split <;> rfl
  · rfl

theorem uploadPageToR2_statuses (page : PageData) (brandId domain : String)
    (clock : Clock) (putOk : Bool) (db : Db) (bucket : R2Bucket)
    (h : ∀ u ∈ db.brand_urls, u.status ∈ allowedUrlStatuses) :
    ∀ u ∈ (uploadPageToR2 page brandId domain clock putOk db
      bucket).1.brand_urls, u.status ∈ allowedUrlStatuses := by
  unfold uploadPageToR2
  dsimp only
  have h1 := updateRows_status_mem
    (fun u => u.brand_id == brandId &&
      u.url == jsOr (page.sourceURL.getD "") (page.metaUrl.getD ""))
    (fun u => {u with status := "uploading",
                      uploading_started_at := some clock.nowIso})
    db.brand_urls h (fun u => by simp [allowedUrlStatuses])
  split
  · exact h1
  · split
    · exact updateRows_status_mem _ _ _ h1
        (fun u => by simp [allowedUrlStatuses])
    · exact updateRows_status_mem _ _ _ h1
        (fun u => by simp [allowedUrlStatuses])

theorem handlePageScraped_statuses (event : FirecrawlWebhookEvent)
    (clock : Clock) (putOk : Bool) (db : Db) (bucket : R2Bucket)
    (h : ∀ u ∈ db.brand_urls, u.status ∈ allowedUrlStatuses) :
    ∀ u ∈ (handlePageScraped event clock putOk db bucket).1.brand_urls,
      u.status ∈ allowedUrlStatuses := by
  unfold handlePageScraped
  dsimp only
  split
  · exact h
  · split
    · exact h
    · apply uploadPageToR2_statuses
      exact updateRows_status_mem _ _ _ h
        (fun u => by simp [scrapedUrlWrite, allowedUrlStatuses])

theorem handleJobFailed_statuses (event : FirecrawlWebhookEvent)
    (clock : Clock) (db : Db)
    (h : ∀ u ∈ db.brand_urls, u.status ∈ allowedUrlStatuses) :
    ∀ u ∈ (handleJobFailed event clock db).brand_urls,
      u.status ∈ allowedUrlStatuses := by
  unfold handleJobFailed
  dsimp only
  split <;>
    exact updateRows_status_mem _ _ _ h
      (fun u => by simp [allowedUrlStatuses])

/-- C1 amended: the statuses the webhook handler leaves on BrandUrl rows
lie in the claimed set extended with `scraped`; starting from rows in the
extended vocabulary, every row after processing any event is still in
it. -/
theorem C1_statuses_amended (event : FirecrawlWebhookEvent) (clock : Clock)
    (putOk : Bool) (db : Db) (bucket : R2Bucket)
    (h : urlStatusesOk db.brand_urls = true) :
    urlStatusesOk
      (handleFirecrawlWebhook event clock putOk db bucket).1.brand_urls =
      true := by
  rw [urlStatusesOk_iff] at h ⊢
  unfold handleFirecrawlWebhook
  dsimp only
  split
  · exact h
  · split
    · rw [handleJobStarted_brand_urls]; exact h
    · rw [handleJobStarted_brand_urls]; exact h
    · exact handlePageScraped_statuses event clock putOk db bucket h
    · exact handlePageScraped_statuses event clock putOk db bucket h
    · rw [handleJobCompleted_brand_urls]; exact h
    · rw [handleJobCompleted_brand_urls]; exact h
    · rw [handleExtractCompleted_brand_urls]; exact h
    · exact handleJobFailed_statuses event clock db h
    · exact handleJobFailed_statuses event clock db h
    · exact handleJobFailed_statuses event clock db h
    · exact h

/-- Witness for the amended C1 at the concrete page event and a
`discovered` row. -/
theorem C1_statuses_amended_witness :
    urlStatusesOk
      (handleFirecrawlWebhook c1Event demoClock true c1Db
        ⟨[]⟩).1.brand_urls = true :=
  C1_statuses_amended c1Event demoClock true c1Db ⟨[]⟩ (by decide)

theorem metaGet_metaPut_self (m : List (String × MetaVal)) (k : String)
    (v : MetaVal) : metaGet (metaPut m k v) k = some v := by
  induction m with
  | nil => simp [metaPut, metaGet]
  | cons p rest ih =>
    obtain ⟨k', v'⟩ := p
    by_cases h : k' = k
    · simp [metaPut, metaGet, h]
    · simp [metaPut, metaGet, h, ih]

theorem metaGet_metaPut_other (m : List (String × MetaVal)) (k k' : String)
    (v : MetaVal) (h : k' ≠ k) :
    metaGet (metaPut m k v) k' = metaGet m k' := by
  have hk : ¬ k = k' := fun hh => h hh.symm
  induction m with
  | nil => simp [metaPut, metaGet, hk]
  | cons p rest ih =>
    obtain ⟨k0, v0⟩ := p
    by_cases h0 : k0 = k
    · subst h0
      simp [metaPut, metaGet, hk]
    · simp [metaPut, metaGet, h0, ih]

/-- C3 counterexample: on an empty extraction result for
`example.com`, the webhook completion branch and the cron completion
branch write different brand metadata: the webhook defaults the industry
to `Various` and sets `worker_processed`/`playground_scan`, while the
cron defaults the industry to `Technology` and sets `cronProcessed`. -/
theorem C3_extract_completion_paths_differ :
    metaGet (webhookBrandUpdate emptyExtractedData "example.com"
      "T").metadata "industry" = some (MetaVal.str "Various") ∧
    metaGet (cronBrandUpdate emptyExtractedData "example.com"
      "T").metadata "industry" = some (MetaVal.str "Technology") ∧
    metaGet (webhookBrandUpdate emptyExtractedData "example.com"
      "T").metadata "worker_processed" = some (MetaVal.flag true) ∧
    metaGet (cronBrandUpdate emptyExtractedData "example.com"
      "T").metadata "worker_processed" = none ∧
    metaGet (cronBrandUpdate emptyExtractedData "example.com"
      "T").metadata "cronProcessed" = some (MetaVal.flag true) ∧
    metaGet (webhookBrandUpdate emptyExtractedData "example.com"
      "T").metadata "cronProcessed" = none ∧
    webhookBrandUpdate emptyExtractedData "example.com" "T" ≠
      cronBrandUpdate emptyExtractedData "example.com" "T" := by decide

/-- C3 amended: for every extraction result, domain and timestamp the
two extract-completion paths agree on name, description, logo_url,
crawl_status and updated_at, and their metadata agree on every key other
than `industry`, `worker_processed`, `playground_scan` and
`cronProcessed` (in particular both stamp the same
`extractCompletedAt`); whenever the extraction carries a nonempty
industry, the stored industry also agrees (both store exactly it).  The
excluded keys are where the two paths genuinely differ, per the
counterexample. -/
theorem C3_extract_completion_paths_amended
    (ed : ExtractedData) (domain iso : String) :
    (webhookBrandUpdate ed domain iso).name =
      (cronBrandUpdate ed domain iso).name ∧
    (webhookBrandUpdate ed domain iso).description =
      (cronBrandUpdate ed domain iso).description ∧
    (webhookBrandUpdate ed domain iso).logo_url =
      (cronBrandUpdate ed domain iso).logo_url ∧
    (webhookBrandUpdate ed domain iso).crawl_status =
      (cronBrandUpdate ed domain iso).crawl_status ∧
    (webhookBrandUpdate ed domain iso).updated_at =
      (cronBrandUpdate ed domain iso).updated_at ∧
    (∀ k : String, k ≠ "industry" → k ≠ "worker_processed" →
      k ≠ "playground_scan" → k ≠ "cronProcessed" →
      metaGet (webhookBrandUpdate ed domain iso).metadata k =
        metaGet (cronBrandUpdate ed domain iso).metadata k) ∧
    ∀ v : String, ed.industry = some v → v ≠ "" →
      metaGet (webhookBrandUpdate ed domain iso).metadata "industry" =
          some (MetaVal.str v) ∧
        metaGet (cronBrandUpdate ed domain iso).metadata "industry" =
          some (MetaVal.str v) := by
  refine ⟨rfl, rfl, rfl, rfl, rfl, ?_, ?_⟩
  · intro k hk1 hk2 hk3 hk4
    show metaGet (metaPut (metaPut (metaPut (metaPut (edSpread ed)
        "industry" (MetaVal.str (jsOrOpt ed.industry "Various")))
        "worker_processed" (MetaVal.flag true))
        "playground_scan" (MetaVal.flag true))
        "extractCompletedAt" (MetaVal.str iso)) k =
      metaGet (metaPut (metaPut (metaPut (edSpread ed)
        "industry" (MetaVal.str (jsOrOpt ed.industry "Technology")))
        "extractCompletedAt" (MetaVal.str iso))
        "cronProcessed" (MetaVal.flag true)) k
    by_cases hc : k = "extractCompletedAt"
    · subst hc
      rw [metaGet_metaPut_self,
        metaGet_metaPut_other _ _ _ _ (by decide), metaGet_metaPut_self]
    · rw [metaGet_metaPut_other _ _ _ _ hc,
        metaGet_metaPut_other _ _ _ _ hk3,
        metaGet_metaPut_other _ _ _ _ hk2,
        metaGet_metaPut_other _ _ _ _ hk1,
        metaGet_metaPut_other _ _ _ _ hk4,
        metaGet_metaPut_other _ _ _ _ hc,
        metaGet_metaPut_other _ _ _ _ hk1]
  · intro v hind hne
    constructor
    · show metaGet (metaPut (metaPut (metaPut (metaPut (edSpread ed)
        "industry" (MetaVal.str (jsOrOpt ed.industry "Various")))
        "worker_processed" (MetaVal.flag true))
        "playground_scan" (MetaVal.flag true))
        "extractCompletedAt" (MetaVal.str iso)) "industry" = _
      rw [metaGet_metaPut_other _ _ _ _ (by decide),
        metaGet_metaPut_other _ _ _ _ (by decide),
        metaGet_metaPut_other _ _ _ _ (by decide), metaGet_metaPut_self]
      simp [jsOrOpt, jsOr, hind, hne]
    · show metaGet (metaPut (metaPut (metaPut (edSpread ed)
        "industry" (MetaVal.str (jsOrOpt ed.industry "Technology")))
        "extractCompletedAt" (MetaVal.str iso))
        "cronProcessed" (MetaVal.flag true)) "industry" = _
      rw [metaGet_metaPut_other _ _ _ _ (by decide),
        metaGet_metaPut_other _ _ _ _ (by decide), metaGet_metaPut_self]
      simp [jsOrOpt, jsOr, hind, hne]

/-- Witness for the amended C3 at a concrete extraction result carrying
an industry, exercising the key-agreement conjunct at `description` and
`extractCompletedAt` and the industry conjunct at `Cars`. -/
theorem C3_extract_completion_paths_amended_witness :
    (webhookBrandUpdate {emptyExtractedData with industry := some "Cars"}
      "example.com" "T").name =
      (cronBrandUpdate {emptyExtractedData with industry := some "Cars"}
        "example.com" "T").name ∧
    metaGet (webhookBrandUpdate
      {emptyExtractedData with industry := some "Cars"} "example.com"
      "T").metadata "description" =
      metaGet (cronBrandUpdate
        {emptyExtractedData with industry := some "Cars"} "example.com"
        "T").metadata "description" ∧
    metaGet (webhookBrandUpdate
      {emptyExtractedData with industry := some "Cars"} "example.com"
      "T").metadata "extractCompletedAt" =
      metaGet (cronBrandUpdate
        {emptyExtractedData with industry := some "Cars"} "example.com"
        "T").metadata "extractCompletedAt" ∧
    metaGet (webhookBrandUpdate
      {emptyExtractedData with industry := some "Cars"} "example.com"
      "T").metadata "industry" = some (MetaVal.str "Cars") ∧
    metaGet (cronBrandUpdate
      {emptyExtractedData with industry := some "Cars"} "example.com"
      "T").metadata "industry" = some (MetaVal.str "Cars") :=
  ⟨(C3_extract_completion_paths_amended
      {emptyExtractedData with industry := some "Cars"} "example.com"
      "T").1,
   (C3_extract_completion_paths_amended
      {emptyExtractedData with industry := some "Cars"} "example.com"
      "T").2.2.2.2.2.1 "description" (by decide) (by decide) (by decide)
      (by decide),
   (C3_extract_completion_paths_amended
      {emptyExtractedData with industry := some "Cars"} "example.com"
      "T").2.2.2.2.2.1 "extractCompletedAt" (by decide) (by decide)
      (by decide) (by decide),
   ((C3_extract_completion_paths_amended
      {emptyExtractedData with industry := some "Cars"} "example.com"
      "T").2.2.2.2.2.2 "Cars" rfl (by decide)).1,
   ((C3_extract_completion_paths_amended
      {emptyExtractedData with industry := some "Cars"} "example.com"
      "T").2.2.2.2.2.2 "Cars" rfl (by decide)).2⟩

/-- C4 counterexample: the handlers write fixed percentages
unconditionally, so delivering `completed` (which stores 100) before
`started` (which stores 50) makes the stored progress decrease from 100
to 50 — the write of 50 is smaller than the value previously stored. -/
theorem C4_progress_decreases_out_of_order :
    ((handleFirecrawlWebhook c4Completed demoClock true c4Db
      ⟨[]⟩).1.mappings.map (fun m => m.progress_percentage)) = [100] ∧
    ((handleFirecrawlWebhook c4Started ⟨6, "T2"⟩ true
      (handleFirecrawlWebhook c4Completed demoClock true c4Db ⟨[]⟩).1
      ⟨[]⟩).1.mappings.map (fun m => m.progress_percentage)) = [50] ∧
    50 < 100 := by decide

/-- C4 amended: when the four writers run in pipeline order (orchestrator
upsert 30, URL storage 40, started event 50, completed event 100), each
successive stored value is greater than or equal to the previous one;
monotonicity holds only for in-order delivery, since every writer stores
its fixed percentage unconditionally. -/
theorem C4_progress_monotone_in_order (brandId domain eventId : String)
    (clock1 clock2 : Clock) (linksCount uploadedCount failedCount : Nat)
    (counts : CategoryCounts) (m : MappingRow) :
    (mappingUpsertPayload brandId domain clock1 m).progress_percentage ≤
      (storeUrlsMappingWrite linksCount counts
        (mappingUpsertPayload brandId domain clock1 m)).progress_percentage ∧
    (storeUrlsMappingWrite linksCount counts
      (mappingUpsertPayload brandId domain clock1 m)).progress_percentage ≤
      (startedMappingWrite eventId (storeUrlsMappingWrite linksCount counts
        (mappingUpsertPayload brandId domain clock1 m))).progress_percentage ∧
    (startedMappingWrite eventId (storeUrlsMappingWrite linksCount counts
      (mappingUpsertPayload brandId domain clock1
        m))).progress_percentage ≤
      (completedMappingWrite uploadedCount failedCount clock2
        (startedMappingWrite eventId (storeUrlsMappingWrite linksCount
          counts (mappingUpsertPayload brandId domain clock1
            m)))).progress_percentage := by
  refine ⟨?_, ?_, ?_⟩ <;>
    (simp [mappingUpsertPayload, storeUrlsMappingWrite, startedMappingWrite,
      completedMappingWrite]
     try omega)

theorem pipelineAfterBrand_launch_failure
    (domain extractJobId newMappingId : String) (env : PipelineEnv)
    (clock : Clock) (brand : BrandRow) (db2 : Db) (e : String)
    (hmap : env.mappingUpsertError = none)
    (hasync : env.asyncResult.error = some e) :
    (pipelineAfterBrand domain extractJobId newMappingId env clock brand
      db2).1.success = true ∧
    (pipelineAfterBrand domain extractJobId newMappingId env clock brand
      db2).1.brand.isSome = true ∧
    (pipelineAfterBrand domain extractJobId newMappingId env clock brand
      db2).1.mapping.isSome = true ∧
    (pipelineAfterBrand domain extractJobId newMappingId env clock brand
      db2).1.error = none ∧
    ((pipelineAfterBrand domain extractJobId newMappingId env clock brand
      db2).2.mappings.all (fun mr =>
        !(mr.id == ((((pipelineAfterBrand domain extractJobId newMappingId
            env clock brand db2).1.mapping).map (fun m => m.id)).getD ""))
        || (mr.status == "failed" && mr.error_message == some e))) =
      true := by
  unfold pipelineAfterBrand
  rw [hmap]
  dsimp only
  rw [hasync]
  unfold launchAsyncStep
  dsimp only
  refine ⟨rfl, rfl, rfl, rfl, ?_⟩
  rw [List.all_eq_true]
  intro mr hmr
  unfold updateRows at hmr
  rw [List.mem_map] at hmr
  obtain ⟨w, hw, rfl⟩ := hmr
  by_cases hp : (w.id == (upsertMapping brand.id domain newMappingId clock
      db2).1.id) = true
  · simp [hp]
  · simp only [hp, if_false, Bool.false_eq_true]
    simp only [Bool.not_eq_true] at hp
    simp [hp]

/-- C7: when steps 1-4 succeed (extraction job started, brand row
settled, mapping upserted) and the async pipeline launch then reports an
error, the orchestrator marks the mapping row failed with that error
message, yet the returned value still has success = true and carries the
brand and mapping objects. -/
theorem C7_launch_failure_returns_success
    (domain : String) (env : PipelineEnv) (newBrandId newMappingId : String)
    (clock : Clock) (db : Db) (jobId e : String)
    (hjob : env.extractJobId = some jobId)
    (hins : env.brandInsertError = none)
    (hmap : env.mappingUpsertError = none)
    (hasync : env.asyncResult.error = some e) :
    (processUnifiedBrandDiscovery domain env newBrandId newMappingId clock
      db).1.success = true ∧
    (processUnifiedBrandDiscovery domain env newBrandId newMappingId clock
      db).1.brand.isSome = true ∧
    (processUnifiedBrandDiscovery domain env newBrandId newMappingId clock
      db).1.mapping.isSome = true ∧
    (processUnifiedBrandDiscovery domain env newBrandId newMappingId clock
      db).1.error = none ∧
    ((processUnifiedBrandDiscovery domain env newBrandId newMappingId clock
      db).2.mappings.all (fun mr =>
        !(mr.id == ((((processUnifiedBrandDiscovery domain env newBrandId
            newMappingId clock db).1.mapping).map (fun m => m.id)).getD
          "")) ||
        (mr.status == "failed" && mr.error_message == some e))) = true := by
  unfold processUnifiedBrandDiscovery
  rw [hjob]
  dsimp only
  split
  · split
    · rw [hins]
      exact pipelineAfterBrand_launch_failure _ _ _ env clock _ _ e hmap
        hasync
    · exact pipelineAfterBrand_launch_failure _ _ _ env clock _ _ e hmap
        hasync
  · rw [hins]
    exact pipelineAfterBrand_launch_failure _ _ _ env clock _ _ e hmap
      hasync

/-- Witness for C7 at a concrete environment and empty database. -/
theorem C7_launch_failure_returns_success_witness :
    (processUnifiedBrandDiscovery "example.com" c7Env "nb1" "nm1" demoClock
      ⟨[], [], []⟩).1.success = true ∧
    (processUnifiedBrandDiscovery "example.com" c7Env "nb1" "nm1" demoClock
      ⟨[], [], []⟩).1.brand.isSome = true ∧
    (processUnifiedBrandDiscovery "example.com" c7Env "nb1" "nm1" demoClock
      ⟨[], [], []⟩).1.mapping.isSome = true ∧
    (processUnifiedBrandDiscovery "example.com" c7Env "nb1" "nm1" demoClock
      ⟨[], [], []⟩).1.error = none ∧
    ((processUnifiedBrandDiscovery "example.com" c7Env "nb1" "nm1" demoClock
      ⟨[], [], []⟩).2.mappings.all (fun mr =>
        !(mr.id == ((((processUnifiedBrandDiscovery "example.com" c7Env
            "nb1" "nm1" demoClock ⟨[], [], []⟩).1.mapping).map
          (fun m => m.id)).getD "")) ||
        (mr.status == "failed" &&
          mr.error_message == some "No URLs discovered during mapping"))) =
      true :=
  C7_launch_failure_returns_success "example.com" c7Env "nb1" "nm1"
    demoClock ⟨[], [], []⟩ "ej1" "No URLs discovered during mapping"
    rfl rfl rfl rfl

set_option maxRecDepth 10000 in
/-- C8 counterexample: with an empty keep-list and 101 objects under
`brands/x/`, the handler issues a single joined delete batch of 101
keys — not batches of at most 100 — because the 100-chunk `allSettled`
loop lives in `deleteBrandContent`, which this handler does not call. -/
theorem C8_cleanup_batch_exceeds_100 :
    ((handleR2Cleanup ⟨some []⟩ c8Bucket).deleteBatches.map
      (fun b => b.length)) = [101] ∧
    ((handleR2Cleanup ⟨some []⟩ c8Bucket).deleteBatches.all
      (fun b => decide (b.length ≤ 100))) = false := by decide

theorem deleteKeys_objects (ks : List String) (b : R2Bucket) :
    (deleteKeys b ks).objects =
      b.objects.filter (fun o => !(ks.contains o.key)) := by
  induction ks generalizing b with
  | nil =>
    simp [deleteKeys]
  | cons k rest ih =>
    rw [show deleteKeys b (k :: rest) = deleteKeys (b.deleteKey k) rest
      from rfl, ih]
    show (b.objects.filter (fun o => !(o.key == k))).filter
        (fun o => !(rest.contains o.key)) = _
    rw [List.filter_filter]
    apply List.filter_congr
    intro o _
    by_cases hk : o.key = k
    · subst hk
      simp
    · have h1 : (o.key == k) = false := beq_eq_false_iff_ne.mpr hk
      have h2 : (k == o.key) = false :=
        beq_eq_false_iff_ne.mpr (fun hh => hk hh.symm)
      cases hcr : rest.contains o.key
      · simp [List.contains_cons, h1, h2, hcr]
        exact ⟨hk, fun hm =>
          Bool.noConfusion ((List.elem_iff.mpr hm).symm.trans hcr)⟩
      · simp [List.contains_cons, h1, h2, hcr]
        exact fun _ => List.elem_iff.mp hcr

theorem contains_listKeys_map (b : R2Bucket) (p : String)
    (o : R2ObjectEntry) (ho : o ∈ b.objects) :
    (((b.listKeys p).map (fun o => o.key)).contains o.key) =
      strLead p o.key := by
  by_cases h : strLead p o.key = true
  · rw [h]
    exact List.elem_iff.mpr
      (List.mem_map.mpr ⟨o, List.mem_filter.mpr ⟨ho, h⟩, rfl⟩)
  · rw [Bool.not_eq_true] at h
    rw [h, Bool.eq_false_iff]
    intro hc
    obtain ⟨o', ho', hkey⟩ := List.mem_map.mp (List.elem_iff.mp hc)
    have hlead := (List.mem_filter.mp ho').2
    rw [hkey] at hlead
    rw [hlead] at h
    cases h

theorem folders_lead_eq_aux (d1 d2 k : List Char) (h2 : '/' ∉ d2)
    (hlen : d1.length ≤ d2.length)
    (ha : leadChars ("brands/".data ++ (d1 ++ ['/'])) k = true)
    (hb : leadChars ("brands/".data ++ (d2 ++ ['/'])) k = true) :
    d1 = d2 := by
  have hpp := leadChars_trans_len _ _ k ha hb
    (by simp only [List.length_append, List.length_cons]; omega)
  obtain ⟨t, ht⟩ := (leadChars_iff _ _).mp hpp
  rw [List.append_assoc] at ht
  have hdd := List.append_cancel_left ht
  rcases Nat.lt_or_ge d1.length d2.length with hlt | hge
  · exfalso
    apply h2
    have hta : d2.take (d1.length + 1) = d1 ++ ['/'] := by
      have hcong := congrArg (List.take (d1.length + 1)) hdd
      rwa [List.take_append_of_le_length (by omega),
        List.take_left' (by simp)] at hcong
    have hmem : '/' ∈ d2.take (d1.length + 1) := by
      rw [hta]; simp
    exact List.take_subset _ _ hmem
  · have heq : d1.length = d2.length := by omega
    have hlen2 := congrArg List.length hdd
    simp only [List.length_append, List.length_cons, List.length_nil] at hlen2
    have ht0 : t = [] := List.length_eq_zero.mp (by omega)
    subst ht0
    rw [List.append_nil] at hdd
    exact (List.append_cancel_right hdd.symm)

theorem brandKeyNamespace_data (d : String) :
    ("brands/" ++ d ++ "/").data =
      "brands/".data ++ (d.data ++ ['/']) := by
  have h : ("brands/" ++ d ++ "/").data =
      ("brands/".data ++ d.data) ++ ("/" : String).data := rfl
  rw [h, List.append_assoc]

theorem folders_lead_disjoint (d1 d2 : String) (k : String)
    (h1 : '/' ∉ d1.data) (h2 : '/' ∉ d2.data) (hne : d1 ≠ d2)
    (ha : strLead ("brands/" ++ d1 ++ "/") k = true) :
    strLead ("brands/" ++ d2 ++ "/") k = false := by
  rw [Bool.eq_false_iff]
  intro hble
  apply hne
  unfold strLead at ha hble
  rw [brandKeyNamespace_data d1] at ha
  rw [brandKeyNamespace_data d2] at hble
  have hdata : d1.data = d2.data := by
    rcases Nat.le_total d1.data.length d2.data.length with hle | hle
    · exact folders_lead_eq_aux d1.data d2.data k.data h2 hle ha hble
    · exact (folders_lead_eq_aux d2.data d1.data k.data h1 hle hble ha).symm
  cases d1
  cases d2
  simp only at hdata
  rw [hdata]

theorem folderScanStep_inv (acc : List String) (obj : R2ObjectEntry)
    (h : acc.Nodup ∧ ∀ d ∈ acc, '/' ∉ d.data) :
    (folderScanStep acc obj).Nodup ∧
      ∀ d ∈ folderScanStep acc obj, '/' ∉ d.data := by
  obtain ⟨hnd, hfree⟩ := h
  unfold folderScanStep
  split
  · next p0 p1 rest heq =>
    split
    · unfold dedupAppend
      by_cases hc : acc.contains ⟨p1⟩ = true
      · rw [if_pos hc]
        exact ⟨hnd, hfree⟩
      · rw [if_neg hc]
        have hp1 : '/' ∉ p1 := by
          apply jsSplit_pieces_sep_free '/' obj.key.data
          rw [heq]
          simp
        constructor
        · rw [List.nodup_append]
          refine ⟨hnd, by simp, ?_⟩
          intro x hx hx1
          simp only [List.mem_singleton] at hx1
          subst hx1
          exact hc (List.elem_iff.mpr hx)
        · intro d hd
          rcases List.mem_append.mp hd with hda | hdb
          · exact hfree d hda
          · simp only [List.mem_singleton] at hdb
            subst hdb
            exact hp1
    · exact ⟨hnd, hfree⟩
  · exact ⟨hnd, hfree⟩

theorem brandFoldersOf_inv (objects : List R2ObjectEntry) :
    (brandFoldersOf objects).Nodup ∧
      ∀ d ∈ brandFoldersOf objects, '/' ∉ d.data := by
  unfold brandFoldersOf
  have key : ∀ (objs : List R2ObjectEntry) (acc : List String),
      acc.Nodup ∧ (∀ d ∈ acc, '/' ∉ d.data) →
      (objs.foldl folderScanStep acc).Nodup ∧
        ∀ d ∈ objs.foldl folderScanStep acc, '/' ∉ d.data := by
    intro objs
    induction objs with
    | nil => intro acc h; exact h
    | cons obj rest ih =>
      intro acc h
      exact ih (folderScanStep acc obj) (folderScanStep_inv acc obj h)
  exact key objects [] ⟨List.nodup_nil, by simp⟩

theorem cleanup_fold_objects (keep : List String) (folders : List String) :
    ∀ outcome : CleanupOutcome,
    (folders.foldl (deleteFolderStep keep) outcome).bucket.objects =
      outcome.bucket.objects.filter (fun o =>
        !(folders.any (fun d => !(keep.contains d) &&
          strLead ("brands/" ++ d ++ "/") o.key))) := by
  induction folders with
  | nil =>
    intro outcome
    simp
  | cons d ds ih =>
    intro outcome
    rw [List.foldl_cons, ih]
    unfold deleteFolderStep
    by_cases hk : keep.contains d = true
    · rw [if_pos hk]
      apply List.filter_congr
      intro o _
      simp only [List.any_cons, hk, Bool.not_true, Bool.false_and,
        Bool.false_or]
    · rw [if_neg hk]
      dsimp only
      rw [Bool.not_eq_true] at hk
      by_cases he : (outcome.bucket.listKeys
          ("brands/" ++ d ++ "/")).isEmpty = true
      · rw [if_pos he]
        apply List.filter_congr
        intro o ho
        have hlead : strLead ("brands/" ++ d ++ "/") o.key = false := by
          rw [List.isEmpty_iff] at he
          have := List.filter_eq_nil_iff.mp he o ho
          rwa [Bool.not_eq_true] at this
        simp only [List.any_cons, hk, hlead, Bool.not_false, Bool.true_and,
          Bool.false_or]
      · rw [if_neg he]
        dsimp only
        rw [deleteKeys_objects, List.filter_filter]
        apply List.filter_congr
        intro o ho
        rw [contains_listKeys_map _ _ _ ho]
        cases hlead : strLead ("brands/" ++ d ++ "/") o.key <;>
          cases hds : ds.any (fun x => !(keep.contains x) &&
            strLead ("brands/" ++ x ++ "/") o.key) <;>
          simp only [List.any_cons, hk, hlead, hds] <;> rfl

theorem listKeys_deleteKeys (b : R2Bucket) (ks : List String) (p : String) :
    (deleteKeys b ks).listKeys p =
      (b.listKeys p).filter (fun o => !(ks.contains o.key)) := by
  unfold R2Bucket.listKeys
  rw [deleteKeys_objects, List.filter_filter, List.filter_filter]
  apply List.filter_congr
  intro o _
  cases strLead p o.key <;> cases ks.contains o.key <;> rfl

theorem deleteFolderStep_listing (keep : List String)
    (outcome : CleanupOutcome) (d d' : String)
    (hdfree : '/' ∉ d.data) (hdfree' : '/' ∉ d'.data) (hne : d ≠ d') :
    (deleteFolderStep keep outcome d).bucket.listKeys
        ("brands/" ++ d' ++ "/") =
      outcome.bucket.listKeys ("brands/" ++ d' ++ "/") := by
  unfold deleteFolderStep
  by_cases hk : keep.contains d = true
  · rw [if_pos hk]
  · rw [if_neg hk]
    dsimp only
    by_cases he : (outcome.bucket.listKeys
        ("brands/" ++ d ++ "/")).isEmpty = true
    · rw [if_pos he]
    · rw [if_neg he]
      dsimp only
      rw [listKeys_deleteKeys]
      apply List.filter_eq_self.mpr
      intro o ho
      have hsplit := List.mem_filter.mp ho
      have hnotd : strLead ("brands/" ++ d ++ "/") o.key = false :=
        folders_lead_disjoint d' d o.key hdfree' hdfree
          (fun hh => hne hh.symm) hsplit.2
      rw [contains_listKeys_map _ _ _ hsplit.1, hnotd]
      rfl

theorem cleanup_fold_exact (keep : List String) (baseBucket : R2Bucket)
    (folders : List String) :
    ∀ outcome : CleanupOutcome,
    folders.Nodup →
    (∀ d ∈ folders, '/' ∉ d.data) →
    (∀ d ∈ folders, outcome.bucket.listKeys ("brands/" ++ d ++ "/") =
      baseBucket.listKeys ("brands/" ++ d ++ "/")) →
    (folders.foldl (deleteFolderStep keep) outcome).deletedFolders =
      outcome.deletedFolders ++ folders.filter (fun d =>
        !(keep.contains d) &&
          !((baseBucket.listKeys ("brands/" ++ d ++ "/")).isEmpty)) ∧
    (folders.foldl (deleteFolderStep keep) outcome).deleteBatches =
      outcome.deleteBatches ++ (folders.filter (fun d =>
        !(keep.contains d) &&
          !((baseBucket.listKeys ("brands/" ++ d ++ "/")).isEmpty))).map
        (fun d => (baseBucket.listKeys ("brands/" ++ d ++ "/")).map
          (fun o => o.key)) := by
  induction folders with
  | nil =>
    intro outcome _ _ _
    constructor <;> simp
  | cons d ds ih =>
    intro outcome hnd hfree hstate
    rw [List.foldl_cons]
    have hdfree := hfree d (by simp)
    have hdsfree : ∀ x ∈ ds, '/' ∉ x.data :=
      fun x hx => hfree x (by simp [hx])
    have hdnotds : d ∉ ds := (List.nodup_cons.mp hnd).1
    have hdsnd : ds.Nodup := (List.nodup_cons.mp hnd).2
    have hbase : outcome.bucket.listKeys ("brands/" ++ d ++ "/") =
        baseBucket.listKeys ("brands/" ++ d ++ "/") :=
      hstate d (by simp)
    have hstate' : ∀ x ∈ ds,
        (deleteFolderStep keep outcome d).bucket.listKeys
            ("brands/" ++ x ++ "/") =
          baseBucket.listKeys ("brands/" ++ x ++ "/") := by
      intro x hx
      rw [deleteFolderStep_listing keep outcome d x hdfree
        (hdsfree x hx) (fun hh => hdnotds (hh ▸ hx))]
      exact hstate x (by simp [hx])
    obtain ⟨hdel, hbat⟩ := ih (deleteFolderStep keep outcome d)
      hdsnd hdsfree hstate'
    by_cases hk : keep.contains d = true
    · have hstep : deleteFolderStep keep outcome d = outcome := by
        unfold deleteFolderStep
        rw [if_pos hk]
      rw [hstep] at hdel hbat
      have hcond : (!(keep.contains d) &&
          !((baseBucket.listKeys ("brands/" ++ d ++ "/")).isEmpty)) =
            false := by
        rw [hk]
        rfl
      have hfil : (d :: ds).filter (fun x =>
          !(keep.contains x) &&
            !((baseBucket.listKeys ("brands/" ++ x ++ "/")).isEmpty)) =
          ds.filter (fun x =>
          !(keep.contains x) &&
            !((baseBucket.listKeys ("brands/" ++ x ++ "/")).isEmpty)) := by
        rw [List.filter_cons, hcond, if_neg Bool.false_ne_true]
      rw [hstep, hfil]
      exact ⟨hdel, hbat⟩
    · have hkf : keep.contains d = false := by
        rw [← Bool.not_eq_true]
        exact hk
      by_cases he : (outcome.bucket.listKeys
          ("brands/" ++ d ++ "/")).isEmpty = true
      · have hstep : deleteFolderStep keep outcome d = outcome := by
          unfold deleteFolderStep
          rw [if_neg hk]
          dsimp only
          rw [if_pos he]
        rw [hstep] at hdel hbat
        have hbe : (baseBucket.listKeys
            ("brands/" ++ d ++ "/")).isEmpty = true := by
          rw [← hbase]
          exact he
        have hcond : (!(keep.contains d) &&
            !((baseBucket.listKeys ("brands/" ++ d ++ "/")).isEmpty)) =
              false := by
          rw [hkf, hbe]
          rfl
        have hfil : (d :: ds).filter (fun x =>
            !(keep.contains x) &&
              !((baseBucket.listKeys ("brands/" ++ x ++ "/")).isEmpty)) =
            ds.filter (fun x =>
            !(keep.contains x) &&
              !((baseBucket.listKeys ("brands/" ++ x ++ "/")).isEmpty)) := by
          rw [List.filter_cons, hcond, if_neg Bool.false_ne_true]
        rw [hstep, hfil]
        exact ⟨hdel, hbat⟩
      · have hbe : (baseBucket.listKeys
            ("brands/" ++ d ++ "/")).isEmpty = false := by
          rw [← hbase, ← Bool.not_eq_true]
          exact he
        have hstepDel : (deleteFolderStep keep outcome d).deletedFolders =
            outcome.deletedFolders ++ [d] := by
          unfold deleteFolderStep
          rw [if_neg hk]
          dsimp only
          rw [if_neg he]
        have hstepBat : (deleteFolderStep keep outcome d).deleteBatches =
            outcome.deleteBatches ++
              [(baseBucket.listKeys ("brands/" ++ d ++ "/")).map
                (fun o => o.key)] := by
          unfold deleteFolderStep
          rw [if_neg hk]
          dsimp only
          rw [if_neg he]
          dsimp only
          rw [hbase]
        have hcond : (!(keep.contains d) &&
            !((baseBucket.listKeys ("brands/" ++ d ++ "/")).isEmpty)) =
              true := by
          rw [hkf, hbe]
          rfl
        have hfil : (d :: ds).filter (fun x =>
            !(keep.contains x) &&
              !((baseBucket.listKeys ("brands/" ++ x ++ "/")).isEmpty)) =
            d :: ds.filter (fun x =>
            !(keep.contains x) &&
              !((baseBucket.listKeys ("brands/" ++ x ++ "/")).isEmpty)) := by
          rw [List.filter_cons, hcond, if_pos rfl]
        constructor
        · rw [hdel, hstepDel, hfil, List.append_assoc]
          rfl
        · rw [hbat, hstepBat, hfil, List.append_assoc]
          rfl

/-- C8 amended: the cleanup handler deletes exactly the objects lying
under a discovered brand folder that is not in the keep-list (surviving
objects are all others, including keys outside `brands/` and bare
`brands/{d}` keys); its deleted-folder report is exactly the discovered
non-kept folders whose `brands/{d}/` listing is nonempty, in discovery
order (a folder discovered only through a bare `brands/{d}` key has an
empty listing and is neither reported nor batched); and its deletion
batches correspond one-to-one with those reported folders, each folder
removed in one joined batch consisting of exactly its listed keys — not
in chunks of 100. -/
theorem C8_cleanup_amended (request : CleanupRequest) (bucket : R2Bucket) :
    (handleR2Cleanup request bucket).bucket.objects =
      bucket.objects.filter (fun o =>
        !(cleanupShouldDelete (request.brandsToKeep.getD
            ["nosana.io", "mastra"])
          (brandFoldersOf (bucket.listKeys "brands/")) o)) ∧
    (handleR2Cleanup request bucket).deletedFolders =
      (brandFoldersOf (bucket.listKeys "brands/")).filter (fun d =>
        !((request.brandsToKeep.getD ["nosana.io", "mastra"]).contains
            d) &&
          !((bucket.listKeys ("brands/" ++ d ++ "/")).isEmpty)) ∧
    (handleR2Cleanup request bucket).deleteBatches =
      ((brandFoldersOf (bucket.listKeys "brands/")).filter (fun d =>
        !((request.brandsToKeep.getD ["nosana.io", "mastra"]).contains
            d) &&
          !((bucket.listKeys ("brands/" ++ d ++ "/")).isEmpty))).map
        (fun d => (bucket.listKeys ("brands/" ++ d ++ "/")).map
          (fun o => o.key)) := by
  unfold handleR2Cleanup
  dsimp only
  by_cases hemp : (bucket.listKeys "brands/").isEmpty = true
  · rw [if_pos hemp]
    rw [List.isEmpty_iff] at hemp
    rw [hemp]
    have h0 : brandFoldersOf ([] : List R2ObjectEntry) = [] := rfl
    rw [h0]
    refine ⟨?_, rfl, rfl⟩
    simp [cleanupShouldDelete]
  · rw [if_neg hemp]
    obtain ⟨hnd, hfree⟩ := brandFoldersOf_inv (bucket.listKeys "brands/")
    obtain ⟨hdel, hbat⟩ := cleanup_fold_exact
      (request.brandsToKeep.getD ["nosana.io", "mastra"]) bucket
      (brandFoldersOf (bucket.listKeys "brands/")) ⟨bucket, [], []⟩
      hnd hfree (fun d _ => rfl)
    refine ⟨?_, ?_, ?_⟩
    · rw [cleanup_fold_objects]
      rfl
    · rw [hdel]
      rfl
    · rw [hbat]
      rfl

end BrandPipeline
